import Mathlib

/-!
# Verification of the dictionary-form simplex solver in `src/main.cpp`

The C++ template `LinearProgram<n, m>` is embedded as a record of lists over
`ℚ` (the `float` arithmetic is read as exact arithmetic).  Every loop of the
source is a left fold over the index range it iterates over; `solve()` is a
`while (true)` loop and becomes a fuel-bounded iteration of one loop body.

The exact reading agrees with the program as long as no operation rounds,
overflows or produces a NaN; the properties proved over it are properties of
the algorithm in exact arithmetic.  What the program does when an operation
overflows is the subject of the namespace `Binary32` at the end of the
definitions, which repeats the embedding over IEEE 754 binary32 values.
-/

namespace Simplex

/-- The value of `std::numeric_limits<float>::lowest()`, that is `-(2 - 2^(-23)) * 2^127`. -/
def FLT_LOWEST : ℚ := -340282346638528859811704183484516925440

/-- Read `v[i]` of a `Vector<float, _>`. -/
def vget (v : List ℚ) (i : Nat) : ℚ := v.getD i 0

/-- Read `M[i][j]` of a `Matrix<float, _, _>`. -/
def mget (M : List (List ℚ)) (i j : Nat) : ℚ := (M.getD i []).getD j 0

/-- Write `M[i][j] = x`. -/
def mset (M : List (List ℚ)) (i j : Nat) (x : ℚ) : List (List ℚ) :=
  M.set i ((M.getD i []).set j x)

/-- Read `v[i]` of a `Vector<size_t, _>`. -/
def iget (v : List Nat) (i : Nat) : Nat := v.getD i 0

/-- The loop `for (size_t i = lo; i < hi; ++i) body`. -/
def forLoop {σ : Type} (lo hi : Nat) (body : Nat → σ → σ) (s : σ) : σ :=
  (List.range' lo (hi - lo)).foldl (fun s i => body i s) s

/-- The fields of `LinearProgram<n, m>`. -/
structure LinearProgram where
  c : List ℚ
  A : List (List ℚ)
  loose : List Nat
  tight : List Nat
deriving DecidableEq, Repr

/-- The constructor `LinearProgram(c, A, b)` (lines 45-79).  The fields start
uninitialised in the source; every cell of them is written by one of the
loops below, so the contents they start with here (zeros) never show. -/
def LinearProgram.init (n m : Nat) (c : List ℚ) (A : List (List ℚ)) (b : List ℚ) :
    LinearProgram :=
  -- c
  let c₁ := forLoop 0 n (fun i (t : List ℚ) => t.set i (vget c i)) (List.replicate (n + m + 1) 0)
  let c₂ := forLoop n (n + m + 1) (fun i (t : List ℚ) => t.set i 0) c₁
  -- A: actual coeff values
  let A₁ := forLoop 0 m (fun i (T : List (List ℚ)) =>
      let T₁ := forLoop 0 n (fun j T => mset T i j (-(mget A i j))) T
      forLoop n (n + m + 1) (fun j T => mset T i j 0) T₁)
    (List.replicate m (List.replicate (n + m + 1) 0))
  -- constant values
  let A₂ := forLoop 0 m (fun i T => mset T i (n + m) (vget b i)) A₁
  -- Tight and loose
  let tight := forLoop 0 n (fun i (t : List Nat) => t.set i i) (List.replicate n 0)
  let loose := forLoop n (n + m) (fun i (l : List Nat) => l.set (i - n) i) (List.replicate m 0)
  { c := c₂, A := A₂, loose := loose, tight := tight }


/-- Which `return` statement of `solve()` was executed: the one of line 107
(no improving variable) or the one of line 131 (after the ratio test found
no row and the diagnostic was written). -/
inductive Exit where
  | optimal
  | failure
deriving DecidableEq, Repr

/-- What the exit writes to `std::cerr` (line 130). -/
def Exit.cerr : Exit → List String
  | .optimal => []
  | .failure => ["Something went wrong"]

/-- The value `solve()` returns: its return type is `void`. -/
def Exit.returned : Exit → Unit
  | .optimal => ()
  | .failure => ()

/-- Step 1 of the loop body (lines 93-104): the scan over `tight`, giving
`(loosen, highest_coeff)`. -/
def chooseLoosen (n : Nat) (lp : LinearProgram) : Nat × ℚ :=
  forLoop 0 n (fun i (p : Nat × ℚ) =>
      let var := iget lp.tight i
      let coeff := vget lp.c var
      if coeff > p.2 then (var, coeff) else p)
    (0, -1)

/-- Step 2 of the loop body (lines 111-127): the ratio test, giving
`(tighten, constraint, highest_ratio)`. -/
def chooseTighten (n m : Nat) (lp : LinearProgram) (loosen : Nat) : Nat × Nat × ℚ :=
  forLoop 0 m (fun i (s : Nat × Nat × ℚ) =>
      let var := iget lp.loose i
      let constant := mget lp.A i (n + m)
      let coeff := mget lp.A i loosen
      if coeff = 0 then s
      else
        let ratio := constant / coeff
        if ratio ≤ 0 ∧ ratio > s.2.2 then (var, i, ratio) else s)
    (0, 0, FLT_LOWEST)

/-- Step 3 of the loop body (lines 137-171): the rewrite of the tableau, in
exact arithmetic (`Binary32.pivot` is the same step in `float` arithmetic,
where the sums and products can overflow). -/
def pivot (n m : Nat) (lp : LinearProgram) (loosen tighten constraint : Nat) :
    LinearProgram :=
  let loosen_coeff := mget lp.A constraint loosen
  -- Move loosen to the left hand side
  let loose := lp.loose.set constraint loosen
  let A₁ := mset lp.A constraint loosen 0
  -- Move tighten to the right hand side
  let A₂ := mset A₁ constraint tighten (-1)
  -- Divide by loosen_coeff
  let A₃ := forLoop 0 (n + m + 1) (fun i T =>
      mset T constraint i (mget T constraint i / -loosen_coeff)) A₂
  -- Remove loosen from the right side of everything else
  let A₄ := forLoop 0 m (fun i T =>
      let loosen_coeff := mget T i loosen
      let T₁ := forLoop 0 (n + m + 1) (fun j T =>
          mset T i j (mget T i j + loosen_coeff * mget T constraint j)) T
      mset T₁ i loosen 0) A₃
  -- Remove loosen from the objective function
  let loosen_coeff := vget lp.c loosen
  let c₁ := forLoop 0 (n + m + 1) (fun i (t : List ℚ) =>
      t.set i (vget t i + loosen_coeff * mget A₄ constraint i)) lp.c
  let c₂ := c₁.set loosen 0
  { c := c₂, A := A₄, loose := loose, tight := lp.tight }

/-- What one pass through the body of `while (true)` does. -/
inductive Iteration where
  | ret (e : Exit)
  | next (lp : LinearProgram)
deriving DecidableEq, Repr

/-- One pass through the body of the `while (true)` loop (lines 91-179). -/
def iteration (n m : Nat) (lp : LinearProgram) : Iteration :=
  let sel := chooseLoosen n lp
  let loosen := sel.1
  let highest_coeff := sel.2
  if highest_coeff ≤ 0 then .ret .optimal
  else
    let r := chooseTighten n m lp loosen
    let tighten := r.1
    let constraint := r.2.1
    let highest_ratio := r.2.2
    if highest_ratio = FLT_LOWEST then .ret .failure
    else .next (pivot n m lp loosen tighten constraint)

/-- The method `solve()`, run for at most `fuel` passes of its loop: `none`
when the loop has not returned within `fuel` passes, otherwise the exit taken
and the fields as `solve()` leaves them. -/
def solve (n m : Nat) : Nat → LinearProgram → Option (Exit × LinearProgram)
  | 0, _ => none
  | fuel + 1, lp =>
    match iteration n m lp with
    | .ret e => some (e, lp)
    | .next lp' => solve n m fuel lp'

/-- The method `objective()` (lines 182-184). -/
def objective (n m : Nat) (lp : LinearProgram) : ℚ := vget lp.c (n + m)


/-- A matrix has `R` rows of `C` entries each. -/
def Shape (T : List (List ℚ)) (R C : Nat) : Prop :=
  T.length = R ∧ ∀ i, i < R → (T.getD i []).length = C


/-- Row `r` of the tableau as the pivot on entry `(r, e)` with leaving variable
`t` leaves it: column `e` zeroed, column `t` set to `-1`, everything divided
by minus the old pivot entry. -/
def newRow (lp : LinearProgram) (r e t b : Nat) : ℚ :=
  (if b = t then -1 else if b = e then 0 else mget lp.A r b) / -(mget lp.A r e)

/-- The state after `k` passes of the loop of `solve()`, each of which
performed a pivot; `none` when `solve()` returns before `k` pivots are done. -/
def afterPivots (n m : Nat) : Nat → LinearProgram → Option LinearProgram
  | 0, lp => some lp
  | k + 1, lp =>
    match iteration n m lp with
    | .ret _ => none
    | .next lp' => afterPivots n m k lp'

/-- The fields have the sizes of `LinearProgram<n, m>`, `tight` is as the
constructor left it, and the columns of the variables listed in `loose` are
eliminated from every row and from the objective row. -/
structure WF (n m : Nat) (lp : LinearProgram) : Prop where
  c_len : lp.c.length = n + m + 1
  A_shape : Shape lp.A m (n + m + 1)
  loose_len : lp.loose.length = m
  tight_len : lp.tight.length = n
  tight_id : ∀ i, i < n → iget lp.tight i = i
  loose_lt : ∀ i, i < m → iget lp.loose i < n + m
  loose_inj : ∀ i k, i < m → k < m → iget lp.loose i = iget lp.loose k → i = k
  col_zero : ∀ i k, i < m → k < m → mget lp.A k (iget lp.loose i) = 0
  c_zero : ∀ i, i < m → vget lp.c (iget lp.loose i) = 0

/-- The assignment `x` of the `n + m` variables satisfies the equation every
row of the tableau stands for: the variable of the row equals the constant
of the row plus the row's coefficients times the variables. -/
def rowsHold (n m : Nat) (lp : LinearProgram) (x : Nat → ℚ) : Prop :=
  ∀ i, i < m →
    x (iget lp.loose i) = mget lp.A i (n + m) + ∑ j in Finset.range (n + m), mget lp.A i j * x j

/-- The value the objective row gives to the assignment `x`. -/
def objExpr (n m : Nat) (lp : LinearProgram) (x : Nat → ℚ) : ℚ :=
  vget lp.c (n + m) + ∑ j in Finset.range (n + m), vget lp.c j * x j

/-- The current basic solution: the value of variable `v` is the constant of
the row `i` with `loose[i] = v` when there is one, and `0` otherwise. -/
def currentValue (n m : Nat) (lp : LinearProgram) (v : Nat) : ℚ :=
  match (List.range m).find? (fun i => decide (iget lp.loose i = v)) with
  | some i => mget lp.A i (n + m)
  | none => 0

/-- The point `x` lies in the feasible region `{x ≥ 0 : A x ≤ b}` of the
linear program the constructor was given. -/
def feasible (n m : Nat) (A : List (List ℚ)) (b : List ℚ) (x : Nat → ℚ) : Prop :=
  (∀ j, j < n → 0 ≤ x j) ∧
  ∀ i, i < m → ∑ j in Finset.range n, mget A i j * x j ≤ vget b i

/-- The value `c · x` of the original objective at the point `x`. -/
def lpValue (n : Nat) (c : List ℚ) (x : Nat → ℚ) : ℚ :=
  ∑ j in Finset.range n, vget c j * x j

/-- The instance `lp` that `example_1()` builds (lines 188-196). -/
def example_1_lp : LinearProgram :=
  LinearProgram.init 2 3 [1.2, 1.7] [[1, 0], [0, 1], [1, 1]] [3000, 4000, 5000]

/-- The value `example_1()` prints (lines 197-198): `objective()` after
`solve()`, when `solve()` returns within `fuel` passes of its loop. -/
def example_1 (fuel : Nat) : Option ℚ :=
  (solve 2 3 fuel example_1_lp).map (fun r => objective 2 3 r.2)

/-- The instance `lp` that `example_2()` builds (lines 202-212). -/
def example_2_lp : LinearProgram :=
  LinearProgram.init 3 3 [5, 4, 3] [[2, 3, 1], [4, 1, 2], [3, 4, 2]] [5, 11, 8]

/-- The value `example_2()` prints (lines 213-214). -/
def example_2 (fuel : Nat) : Option ℚ :=
  (solve 3 3 fuel example_2_lp).map (fun r => objective 3 3 r.2)

/-- The fields of the instance of `example_2()` when `solve()` returns. -/
def example_2_final : LinearProgram :=
  ⟨[0, -3, 0, -1, 0, -1, 13],
   [[0, -2, 0, -2, 0, 1, 2], [0, 5, 0, 2, 0, 0, 1], [0, 1, 0, 3, 0, -2, 1]],
   [0, 4, 2], [0, 1, 2]⟩

/-- The fields of the instance of `example_2()` after the first pivot of
`solve()`. -/
def example_2_mid : LinearProgram :=
  ⟨[0, -7/2, 1/2, -5/2, 0, 0, 25/2],
   [[0, -3/2, -1/2, -1/2, 0, 0, 5/2], [0, 5, 0, 2, 0, 0, 1], [0, 1/2, -1/2, 3/2, 0, 0, 1/2]],
   [0, 4, 5], [0, 1, 2]⟩

/-! ## The binary32 reading

The definitions above read `float` as exact rationals.  The definitions of
this section read it as IEEE 754 binary32 and repeat the constructor and the
loop body of `solve()` over that type: every operation rounds to nearest,
ties to even, overflows to an infinity, and produces NaN as the standard
says. -/

namespace Binary32

/-- A value of the type `float`: a finite value given by its sign bit and its
magnitude (so that there are two zeros), an infinity given by its sign bit,
or a NaN. -/
inductive F32 where
  | fin (neg : Bool) (mag : ℚ)
  | inf (neg : Bool)
  | nan
deriving DecidableEq, Repr

/-- The power `2 ^ k` for an integer `k`. -/
def pow2 (k : Int) : ℚ :=
  if 0 ≤ k then ((2 ^ k.toNat : Nat) : ℚ) else 1 / ((2 ^ (-k).toNat : Nat) : ℚ)

/-- The number of halvings that bring `n` below `2`, in at most `fuel`
steps: with `fuel = n` this is the `e` with `2 ^ e ≤ n < 2 ^ (e + 1)`, for
`n > 0`. -/
def halvings : Nat → Nat → Nat
  | 0, _ => 0
  | fuel + 1, n => if n < 2 then 0 else halvings fuel (n / 2) + 1

/-- The integer `e` with `2 ^ e ≤ x < 2 ^ (e + 1)`, for `x > 0`. -/
def ilog2 (x : ℚ) : Int :=
  let k : Int := (halvings x.num.natAbs x.num.natAbs : Int) - (halvings x.den x.den : Int)
  if pow2 k ≤ x then k else k - 1

/-- The integer nearest to `x ≥ 0`, the even one of the two when `x` is half
way between them. -/
def roundHalfEven (x : ℚ) : Nat :=
  let f := x.floor.toNat
  if x - f < 1 / 2 then f
  else if 1 / 2 < x - f then f + 1
  else if f % 2 = 0 then f else f + 1

/-- The magnitude `x ≥ 0` rounded to binary32 (24 significant bits, least
exponent `-126`, subnormals in steps of `2 ^ (-149)`), or `none` when the
rounded magnitude is `2 ^ 128` or more, which is an overflow. -/
def roundMag (x : ℚ) : Option ℚ :=
  if x = 0 then some 0
  else
    let q := pow2 (max (ilog2 x) (-126) - 23)
    let r := (roundHalfEven (x / q) : ℚ) * q
    if pow2 128 ≤ r then none else some r

/-- The `float` of sign `neg` nearest to the magnitude `x`. -/
def F32.round (neg : Bool) (x : ℚ) : F32 :=
  match roundMag x with
  | some r => .fin neg r
  | none => .inf neg

/-- The number a sign bit and a magnitude stand for. -/
def sval (neg : Bool) (mag : ℚ) : ℚ := if neg then -mag else mag

/-- The constant `0` as a `float`. -/
def F32.zero : F32 := .fin false 0

/-- The constant `-1` as a `float`. -/
def F32.minusOne : F32 := .fin true 1

/-- The value of `std::numeric_limits<float>::lowest()`. -/
def F32.lowest : F32 := .fin true 340282346638528859811704183484516925440

/-- Unary minus: the sign bit is flipped. -/
def F32.neg : F32 → F32
  | .fin s m => .fin (!s) m
  | .inf s => .inf (!s)
  | .nan => .nan

/-- The sum `a + b`. -/
def F32.add : F32 → F32 → F32
  | .nan, _ => .nan
  | _, .nan => .nan
  | .inf s, .inf t => if s = t then .inf s else .nan
  | .inf s, .fin _ _ => .inf s
  | .fin _ _, .inf t => .inf t
  | .fin s m, .fin t k =>
    let x := sval s m + sval t k
    if x = 0 then .fin (s && t) 0 else F32.round (decide (x < 0)) |x|

/-- The product `a * b`. -/
def F32.mul : F32 → F32 → F32
  | .nan, _ => .nan
  | _, .nan => .nan
  | .inf s, .inf t => .inf (xor s t)
  | .inf s, .fin t k => if k = 0 then .nan else .inf (xor s t)
  | .fin s m, .inf t => if m = 0 then .nan else .inf (xor s t)
  | .fin s m, .fin t k => F32.round (xor s t) (m * k)

/-- The quotient `a / b`. -/
def F32.div : F32 → F32 → F32
  | .nan, _ => .nan
  | _, .nan => .nan
  | .inf _, .inf _ => .nan
  | .inf s, .fin t _ => .inf (xor s t)
  | .fin s _, .inf t => .fin (xor s t) 0
  | .fin s m, .fin t k =>
    if k = 0 then (if m = 0 then .nan else .inf (xor s t))
    else F32.round (xor s t) (m / k)

/-- The comparison `a < b`; false when either side is a NaN. -/
def F32.lt : F32 → F32 → Bool
  | .nan, _ => false
  | _, .nan => false
  | .inf s, .inf t => s && !t
  | .inf s, .fin _ _ => s
  | .fin _ _, .inf t => !t
  | .fin s m, .fin t k => decide (sval s m < sval t k)

/-- The comparison `a <= b`; false when either side is a NaN. -/
def F32.le : F32 → F32 → Bool
  | .nan, _ => false
  | _, .nan => false
  | .inf s, .inf t => s || !t
  | .inf s, .fin _ _ => s
  | .fin _ _, .inf t => !t
  | .fin s m, .fin t k => decide (sval s m ≤ sval t k)

/-- The comparison `a == b`; false when either side is a NaN, true for the
two zeros. -/
def F32.eq : F32 → F32 → Bool
  | .nan, _ => false
  | _, .nan => false
  | .inf s, .inf t => s == t
  | .inf _, .fin _ _ => false
  | .fin _ _, .inf _ => false
  | .fin s m, .fin t k => decide (sval s m = sval t k)

/-- Read `v[i]` of a `Vector<float, _>`. -/
def vget (v : List F32) (i : Nat) : F32 := v.getD i F32.zero

/-- Read `M[i][j]` of a `Matrix<float, _, _>`. -/
def mget (M : List (List F32)) (i j : Nat) : F32 := (M.getD i []).getD j F32.zero

/-- Write `M[i][j] = x`. -/
def mset (M : List (List F32)) (i j : Nat) (x : F32) : List (List F32) :=
  M.set i ((M.getD i []).set j x)

/-- The fields of `LinearProgram<n, m>`, with `float` entries. -/
structure LinearProgram where
  c : List F32
  A : List (List F32)
  loose : List Nat
  tight : List Nat
deriving DecidableEq, Repr

/-- The constructor `LinearProgram(c, A, b)` (lines 45-79). -/
def LinearProgram.init (n m : Nat) (c : List F32) (A : List (List F32)) (b : List F32) :
    LinearProgram :=
  -- c
  let c₁ := forLoop 0 n (fun i (t : List F32) => t.set i (vget c i))
    (List.replicate (n + m + 1) F32.zero)
  let c₂ := forLoop n (n + m + 1) (fun i (t : List F32) => t.set i F32.zero) c₁
  -- A: actual coeff values
  let A₁ := forLoop 0 m (fun i (T : List (List F32)) =>
      let T₁ := forLoop 0 n (fun j T => mset T i j (F32.neg (mget A i j))) T
      forLoop n (n + m + 1) (fun j T => mset T i j F32.zero) T₁)
    (List.replicate m (List.replicate (n + m + 1) F32.zero))
  -- constant values
  let A₂ := forLoop 0 m (fun i T => mset T i (n + m) (vget b i)) A₁
  -- Tight and loose
  let tight := forLoop 0 n (fun i (t : List Nat) => t.set i i) (List.replicate n 0)
  let loose := forLoop n (n + m) (fun i (l : List Nat) => l.set (i - n) i) (List.replicate m 0)
  { c := c₂, A := A₂, loose := loose, tight := tight }

/-- Step 1 of the loop body (lines 93-104): the scan over `tight`, giving
`(loosen, highest_coeff)`. -/
def chooseLoosen (n : Nat) (lp : LinearProgram) : Nat × F32 :=
  forLoop 0 n (fun i (p : Nat × F32) =>
      let var := iget lp.tight i
      let coeff := vget lp.c var
      if F32.lt p.2 coeff then (var, coeff) else p)
    (0, F32.minusOne)

/-- Step 2 of the loop body (lines 111-127): the ratio test, giving
`(tighten, constraint, highest_ratio)`. -/
def chooseTighten (n m : Nat) (lp : LinearProgram) (loosen : Nat) : Nat × Nat × F32 :=
  forLoop 0 m (fun i (s : Nat × Nat × F32) =>
      let var := iget lp.loose i
      let constant := mget lp.A i (n + m)
      let coeff := mget lp.A i loosen
      if F32.eq coeff F32.zero then s
      else
        let ratio := F32.div constant coeff
        if F32.le ratio F32.zero ∧ F32.lt s.2.2 ratio then (var, i, ratio) else s)
    (0, 0, F32.lowest)

/-- Step 3 of the loop body (lines 137-171): the rewrite of the tableau. -/
def pivot (n m : Nat) (lp : LinearProgram) (loosen tighten constraint : Nat) :
    LinearProgram :=
  let loosen_coeff := mget lp.A constraint loosen
  -- Move loosen to the left hand side
  let loose := lp.loose.set constraint loosen
  let A₁ := mset lp.A constraint loosen F32.zero
  -- Move tighten to the right hand side
  let A₂ := mset A₁ constraint tighten F32.minusOne
  -- Divide by loosen_coeff
  let A₃ := forLoop 0 (n + m + 1) (fun i T =>
      mset T constraint i (F32.div (mget T constraint i) (F32.neg loosen_coeff))) A₂
  -- Remove loosen from the right side of everything else
  let A₄ := forLoop 0 m (fun i T =>
      let loosen_coeff := mget T i loosen
      let T₁ := forLoop 0 (n + m + 1) (fun j T =>
          mset T i j (F32.add (mget T i j) (F32.mul loosen_coeff (mget T constraint j)))) T
      mset T₁ i loosen F32.zero) A₃
  -- Remove loosen from the objective function
  let loosen_coeff := vget lp.c loosen
  let c₁ := forLoop 0 (n + m + 1) (fun i (t : List F32) =>
      t.set i (F32.add (vget t i) (F32.mul loosen_coeff (mget A₄ constraint i)))) lp.c
  let c₂ := c₁.set loosen F32.zero
  { c := c₂, A := A₄, loose := loose, tight := lp.tight }

/-- What one pass through the body of `while (true)` does. -/
inductive Iteration where
  | ret (e : Exit)
  | next (lp : LinearProgram)
deriving DecidableEq, Repr

/-- One pass through the body of the `while (true)` loop (lines 91-179). -/
def iteration (n m : Nat) (lp : LinearProgram) : Iteration :=
  let sel := chooseLoosen n lp
  let loosen := sel.1
  let highest_coeff := sel.2
  if F32.le highest_coeff F32.zero then .ret .optimal
  else
    let r := chooseTighten n m lp loosen
    let tighten := r.1
    let constraint := r.2.1
    let highest_ratio := r.2.2
    if F32.eq highest_ratio F32.lowest then .ret .failure
    else .next (pivot n m lp loosen tighten constraint)

/-- The state after `k` passes of the loop of `solve()`, each of which
performed a pivot; `none` when `solve()` returns before `k` pivots are done. -/
def afterPivots (n m : Nat) : Nat → LinearProgram → Option LinearProgram
  | 0, lp => some lp
  | k + 1, lp =>
    match iteration n m lp with
    | .ret _ => none
    | .next lp' => afterPivots n m k lp'

end Binary32

/-! ## Lemmas on the loops, the constructor and the pivot -/

theorem forLoop_empty {σ : Type} (lo hi : Nat) (h : hi ≤ lo) (body : Nat → σ → σ) (s : σ) :
    forLoop lo hi body s = s := by
  unfold forLoop
  have : hi - lo = 0 := by omega
  simp [this]

theorem forLoop_succ {σ : Type} (lo hi : Nat) (h : lo ≤ hi) (body : Nat → σ → σ) (s : σ) :
    forLoop lo (hi + 1) body s = body hi (forLoop lo hi body s) := by
  unfold forLoop
  have e : hi + 1 - lo = (hi - lo) + 1 := by omega
  have e2 : lo + (hi - lo) = hi := by omega
  rw [e, List.range'_1_concat, List.foldl_append]
  simp [e2]

theorem forLoop_induction {σ : Type} (P : Nat → σ → Prop) (lo hi : Nat)
    (body : Nat → σ → σ) (s : σ) (hle : lo ≤ hi) (h0 : P lo s)
    (hs : ∀ k t, lo ≤ k → k < hi → P k t → P (k + 1) (body k t)) :
    P hi (forLoop lo hi body s) := by
  have key : ∀ d, lo + d ≤ hi → P (lo + d) (forLoop lo (lo + d) body s) := by
    intro d
    induction d with
    | zero => intro _; simpa [forLoop_empty] using h0
    | succ d ih =>
      intro hd
      have := hs (lo + d) _ (by omega) (by omega) (ih (by omega))
      rw [← Nat.add_assoc, forLoop_succ lo (lo + d) (by omega)]
      exact this
  have := key (hi - lo) (by omega)
  have e : lo + (hi - lo) = hi := by omega
  rwa [e] at this

theorem vget_set (v : List ℚ) (i : Nat) (x : ℚ) (k : Nat) :
    vget (v.set i x) k = if k = i ∧ i < v.length then x else vget v k := by
  unfold vget
  simp only [List.getD_eq_getElem?_getD, List.getElem?_set]
  by_cases h : i = k
  · subst h
    by_cases h2 : i < v.length
    · simp [h2]
    · simp [h2, List.getElem?_eq_none (Nat.le_of_not_lt h2)]
  · have : ¬ k = i := fun e => h e.symm
    simp [h, this]

theorem iget_set (v : List Nat) (i : Nat) (x : Nat) (k : Nat) :
    iget (v.set i x) k = if k = i ∧ i < v.length then x else iget v k := by
  unfold iget
  simp only [List.getD_eq_getElem?_getD, List.getElem?_set]
  by_cases h : i = k
  · subst h
    by_cases h2 : i < v.length
    · simp [h2]
    · simp [h2, List.getElem?_eq_none (Nat.le_of_not_lt h2)]
  · have : ¬ k = i := fun e => h e.symm
    simp [h, this]

theorem getD_set_rows (T : List (List ℚ)) (i : Nat) (row : List ℚ) (a : Nat) :
    (T.set i row).getD a [] = if a = i ∧ i < T.length then row else T.getD a [] := by
  simp only [List.getD_eq_getElem?_getD, List.getElem?_set]
  by_cases h : i = a
  · subst h
    by_cases h2 : i < T.length
    · simp [h2]
    · simp [h2, List.getElem?_eq_none (Nat.le_of_not_lt h2)]
  · have : ¬ a = i := fun e => h e.symm
    simp [h, this]

theorem mget_mset (T : List (List ℚ)) (i j : Nat) (x : ℚ) (a b : Nat) :
    mget (mset T i j x) a b =
      if a = i ∧ b = j ∧ i < T.length ∧ j < (T.getD i []).length then x else mget T a b := by
  unfold mget mset
  rw [getD_set_rows]
  by_cases h : a = i ∧ i < T.length
  · rw [if_pos h]
    obtain ⟨rfl, h2⟩ := h
    have := vget_set (T.getD a []) j x b
    unfold vget at this
    rw [this]
    simp [h2]
  · rw [if_neg h]
    have : ¬ (a = i ∧ b = j ∧ i < T.length ∧ j < (T.getD i []).length) := by
      rintro ⟨h1, -, h3, -⟩; exact h ⟨h1, h3⟩
    rw [if_neg this]

theorem shape_mset (T : List (List ℚ)) (R C i j : Nat) (x : ℚ) (h : Shape T R C) :
    Shape (mset T i j x) R C := by
  obtain ⟨h1, h2⟩ := h
  refine ⟨by simp [mset, h1], ?_⟩
  intro a ha
  unfold mset
  rw [getD_set_rows]
  split
  · rename_i hc
    rw [List.length_set]
    exact h2 i (by omega)
  · exact h2 a ha

theorem mget_mset_shape (T : List (List ℚ)) (R C i j : Nat) (x : ℚ) (a b : Nat)
    (h : Shape T R C) (hi : i < R) (hj : j < C) :
    mget (mset T i j x) a b = if a = i ∧ b = j then x else mget T a b := by
  rw [mget_mset]
  have h1 : i < T.length := by rw [h.1]; exact hi
  have h2 : j < (T.getD i []).length := by rw [h.2 i hi]; exact hj
  have e : (a = i ∧ b = j ∧ i < T.length ∧ j < (T.getD i []).length) ↔ (a = i ∧ b = j) :=
    ⟨fun p => ⟨p.1, p.2.1⟩, fun p => ⟨p.1, p.2, h1, h2⟩⟩
  rw [if_congr e rfl rfl]


/-- A loop over the columns `lo ≤ j < K` of row `i` that writes each cell from
its own old value and the cell of row `r` in the same column. -/
theorem forLoop_row (T : List (List ℚ)) (R C i r lo K : Nat) (g : Nat → ℚ → ℚ → ℚ)
    (hS : Shape T R C) (hi : i < R) (hlo : lo ≤ K) (hK : K ≤ C) :
    Shape (forLoop lo K (fun j T => mset T i j (g j (mget T i j) (mget T r j))) T) R C ∧
    ∀ a b, mget (forLoop lo K (fun j T => mset T i j (g j (mget T i j) (mget T r j))) T) a b =
      if a = i ∧ lo ≤ b ∧ b < K then g b (mget T i b) (mget T r b) else mget T a b := by
  refine forLoop_induction
    (fun k t => Shape t R C ∧ ∀ a b, mget t a b =
      if a = i ∧ lo ≤ b ∧ b < k then g b (mget T i b) (mget T r b) else mget T a b)
    lo K _ T hlo ⟨hS, ?_⟩ ?_
  · intro a b
    have : ¬ (a = i ∧ lo ≤ b ∧ b < lo) := by omega
    rw [if_neg this]
  · rintro k t hk1 hk2 ⟨ht, hv⟩
    refine ⟨shape_mset _ _ _ _ _ _ ht, ?_⟩
    intro a b
    rw [mget_mset_shape t R C i k _ a b ht hi (by omega)]
    by_cases h : a = i ∧ b = k
    · obtain ⟨rfl, rfl⟩ := h
      have c1 : a = a ∧ lo ≤ b ∧ b < b + 1 := ⟨rfl, hk1, by omega⟩
      have c2 : ¬ (a = a ∧ lo ≤ b ∧ b < b) := by omega
      have c3 : ¬ (r = a ∧ lo ≤ b ∧ b < b) := by omega
      rw [if_pos ⟨rfl, rfl⟩, if_pos c1, hv a b, hv r b, if_neg c2, if_neg c3]
    · rw [if_neg h, hv a b]
      by_cases h2 : a = i ∧ lo ≤ b ∧ b < k
      · have : a = i ∧ lo ≤ b ∧ b < k + 1 := ⟨h2.1, h2.2.1, by omega⟩
        rw [if_pos h2, if_pos this]
      · have : ¬ (a = i ∧ lo ≤ b ∧ b < k + 1) := by
          rintro ⟨p, q, s⟩
          have : b ≠ k := fun e => h ⟨p, e⟩
          exact h2 ⟨p, q, by omega⟩
        rw [if_neg h2, if_neg this]

/-- A loop over the indices `lo ≤ k < K` of a vector that writes each entry
from its own old value. -/
theorem forLoop_vec (t : List ℚ) (lo K : Nat) (g : Nat → ℚ → ℚ)
    (hlo : lo ≤ K) (hK : K ≤ t.length) :
    (forLoop lo K (fun k t => t.set k (g k (vget t k))) t).length = t.length ∧
    ∀ a, vget (forLoop lo K (fun k t => t.set k (g k (vget t k))) t) a =
      if lo ≤ a ∧ a < K then g a (vget t a) else vget t a := by
  refine forLoop_induction
    (fun k s => s.length = t.length ∧ ∀ a, vget s a =
      if lo ≤ a ∧ a < k then g a (vget t a) else vget t a)
    lo K _ t hlo ⟨rfl, ?_⟩ ?_
  · intro a
    have : ¬ (lo ≤ a ∧ a < lo) := by omega
    rw [if_neg this]
  · rintro k s hk1 hk2 ⟨hl, hv⟩
    refine ⟨by rw [List.length_set, hl], ?_⟩
    intro a
    rw [vget_set]
    by_cases h : a = k
    · subst h
      have c1 : a = a ∧ a < s.length := ⟨rfl, by omega⟩
      have c2 : lo ≤ a ∧ a < a + 1 := ⟨hk1, by omega⟩
      have c3 : ¬ (lo ≤ a ∧ a < a) := by omega
      rw [if_pos c1, if_pos c2, hv a, if_neg c3]
    · have c1 : ¬ (a = k ∧ k < s.length) := fun p => h p.1
      rw [if_neg c1, hv a]
      by_cases h2 : lo ≤ a ∧ a < k
      · have : lo ≤ a ∧ a < k + 1 := ⟨h2.1, by omega⟩
        rw [if_pos h2, if_pos this]
      · have : ¬ (lo ≤ a ∧ a < k + 1) := by omega
        rw [if_neg h2, if_neg this]


theorem shape_replicate (R C : Nat) : Shape (List.replicate R (List.replicate C (0 : ℚ))) R C := by
  refine ⟨by simp, ?_⟩
  intro i hi
  simp [List.getD_eq_getElem?_getD, List.getElem?_replicate, hi]

theorem mget_replicate (R C a b : Nat) :
    mget (List.replicate R (List.replicate C (0 : ℚ))) a b = 0 := by
  unfold mget
  simp only [List.getD_eq_getElem?_getD, List.getElem?_replicate]
  by_cases h : a < R
  · by_cases h2 : b < C <;> simp [h, h2]
  · simp [h]

theorem vget_replicate (C a : Nat) : vget (List.replicate C (0 : ℚ)) a = 0 := by
  unfold vget
  simp only [List.getD_eq_getElem?_getD, List.getElem?_replicate]
  by_cases h : a < C <;> simp [h]

theorem init_c (n m : Nat) (c : List ℚ) (A : List (List ℚ)) (b : List ℚ) :
    (LinearProgram.init n m c A b).c.length = n + m + 1 ∧
    ∀ k, vget (LinearProgram.init n m c A b).c k = if k < n then vget c k else 0 := by
  have h1 := forLoop_vec (List.replicate (n + m + 1) 0) 0 n (fun i _ => vget c i)
    (Nat.zero_le _) (by simp; omega)
  have h2 := forLoop_vec
    (forLoop 0 n (fun i (t : List ℚ) => t.set i (vget c i)) (List.replicate (n + m + 1) 0))
    n (n + m + 1) (fun _ _ => 0) (by omega) (by rw [h1.1]; simp)
  have e : (LinearProgram.init n m c A b).c = forLoop n (n + m + 1) (fun i (t : List ℚ) => t.set i 0)
      (forLoop 0 n (fun i (t : List ℚ) => t.set i (vget c i)) (List.replicate (n + m + 1) 0)) := rfl
  rw [e]
  refine ⟨?_, ?_⟩
  · rw [h2.1, h1.1]; simp
  · intro k
    rw [h2.2 k, h1.2 k, vget_replicate]
    by_cases h : k < n
    · have : ¬ (n ≤ k ∧ k < n + m + 1) := by omega
      rw [if_neg this, if_pos ⟨Nat.zero_le _, h⟩, if_pos h]
    · have : ¬ (0 ≤ k ∧ k < n) := by omega
      rw [if_neg this, if_neg h]; simp

theorem init_A (n m : Nat) (c : List ℚ) (A : List (List ℚ)) (b : List ℚ) :
    Shape (LinearProgram.init n m c A b).A m (n + m + 1) ∧
    ∀ i j, mget (LinearProgram.init n m c A b).A i j =
      if i < m ∧ j < n then -(mget A i j) else if i < m ∧ j = n + m then vget b i else 0 := by
  have h1 : Shape (forLoop 0 m (fun i (T : List (List ℚ)) =>
        let T₁ := forLoop 0 n (fun j T => mset T i j (-(mget A i j))) T
        forLoop n (n + m + 1) (fun j T => mset T i j 0) T₁)
        (List.replicate m (List.replicate (n + m + 1) 0))) m (n + m + 1) ∧
      ∀ a b', mget (forLoop 0 m (fun i (T : List (List ℚ)) =>
        let T₁ := forLoop 0 n (fun j T => mset T i j (-(mget A i j))) T
        forLoop n (n + m + 1) (fun j T => mset T i j 0) T₁)
        (List.replicate m (List.replicate (n + m + 1) 0))) a b' =
        if a < m ∧ b' < n then -(mget A a b') else 0 := by
    refine forLoop_induction
      (fun k T => Shape T m (n + m + 1) ∧ ∀ a b', mget T a b' =
        if a < k ∧ b' < n then -(mget A a b') else 0)
      0 m _ _ (Nat.zero_le _) ⟨shape_replicate _ _, ?_⟩ ?_
    · intro a b'
      rw [mget_replicate]; simp
    · rintro k T - hk ⟨hS, hv⟩
      have q1 := forLoop_row T m (n + m + 1) k k 0 n (fun j _ _ => -(mget A k j)) hS hk
        (Nat.zero_le _) (by omega)
      have q2 := forLoop_row _ m (n + m + 1) k k n (n + m + 1) (fun _ _ _ => 0) q1.1 hk
        (by omega) (Nat.le_refl _)
      refine ⟨q2.1, ?_⟩
      intro a b'
      show mget (forLoop n (n + m + 1) _ (forLoop 0 n _ T)) a b' = _
      rw [q2.2 a b', q1.2 a b', hv a b']
      by_cases ha : a = k
      · subst ha
        by_cases hb : b' < n
        · have c1 : ¬ (a = a ∧ n ≤ b' ∧ b' < n + m + 1) := by omega
          have c2 : a = a ∧ 0 ≤ b' ∧ b' < n := ⟨rfl, Nat.zero_le _, hb⟩
          have c3 : a < a + 1 ∧ b' < n := ⟨by omega, hb⟩
          rw [if_neg c1, if_pos c2, if_pos c3]
        · have c2 : ¬ (a = a ∧ 0 ≤ b' ∧ b' < n) := by omega
          have c3 : ¬ (a < a + 1 ∧ b' < n) := by omega
          have c4 : ¬ (a < a ∧ b' < n) := by omega
          rw [if_neg c2, if_neg c3, if_neg c4]; simp
      · have c1 : ¬ (a = k ∧ n ≤ b' ∧ b' < n + m + 1) := fun p => ha p.1
        have c2 : ¬ (a = k ∧ 0 ≤ b' ∧ b' < n) := fun p => ha p.1
        rw [if_neg c1, if_neg c2]
        by_cases h3 : a < k ∧ b' < n
        · have : a < k + 1 ∧ b' < n := ⟨by omega, h3.2⟩
          rw [if_pos h3, if_pos this]
        · have : ¬ (a < k + 1 ∧ b' < n) := by omega
          rw [if_neg h3, if_neg this]
  have h2 := forLoop_induction
      (fun k T => Shape T m (n + m + 1) ∧ ∀ a b', mget T a b' =
        if a < k ∧ b' = n + m then vget b a
        else if a < m ∧ b' < n then -(mget A a b') else 0)
      0 m (fun i T => mset T i (n + m) (vget b i)) _ (Nat.zero_le _) ⟨h1.1, ?_⟩ ?_
  · refine ⟨h2.1, ?_⟩
    intro i j
    have := h2.2 i j
    show mget (forLoop 0 m _ _) i j = _
    rw [this]
    by_cases p : i < m ∧ j < n
    · have : ¬ (i < m ∧ j = n + m) := by omega
      simp only [if_neg this, if_pos p]
    · simp only [if_neg p]
  · intro a b'
    have : ¬ (a < 0 ∧ b' = n + m) := by omega
    rw [if_neg this, h1.2 a b']
  · rintro k T - hk ⟨hS, hv⟩
    refine ⟨shape_mset _ _ _ _ _ _ hS, ?_⟩
    intro a b'
    rw [mget_mset_shape T m (n + m + 1) k (n + m) _ a b' hS hk (by omega), hv a b']
    by_cases h : a = k ∧ b' = n + m
    · obtain ⟨rfl, rfl⟩ := h
      have : a < a + 1 ∧ n + m = n + m := ⟨by omega, rfl⟩
      rw [if_pos ⟨rfl, rfl⟩, if_pos this]
    · rw [if_neg h]
      by_cases h3 : a < k ∧ b' = n + m
      · have : a < k + 1 ∧ b' = n + m := ⟨by omega, h3.2⟩
        rw [if_pos h3, if_pos this]
      · have : ¬ (a < k + 1 ∧ b' = n + m) := by
          rintro ⟨p, q⟩
          by_cases e : a = k
          · exact h ⟨e, q⟩
          · exact h3 ⟨by omega, q⟩
        rw [if_neg h3, if_neg this]

theorem init_tight (n m : Nat) (c : List ℚ) (A : List (List ℚ)) (b : List ℚ) :
    (LinearProgram.init n m c A b).tight.length = n ∧
    ∀ i, i < n → iget (LinearProgram.init n m c A b).tight i = i := by
  have := forLoop_induction
      (fun k (t : List Nat) => t.length = n ∧ ∀ i, i < k → iget t i = i)
      0 n (fun i (t : List Nat) => t.set i i) (List.replicate n 0) (Nat.zero_le _)
      ⟨by simp, fun i hi => absurd hi (by omega)⟩ ?_
  · exact this
  · rintro k t - hk ⟨hl, hv⟩
    refine ⟨by rw [List.length_set, hl], ?_⟩
    intro i hi
    rw [iget_set]
    by_cases h : i = k
    · rw [if_pos ⟨h, by omega⟩]; exact h.symm
    · rw [if_neg (fun p => h p.1)]
      exact hv i (by omega)

theorem init_loose (n m : Nat) (c : List ℚ) (A : List (List ℚ)) (b : List ℚ) :
    (LinearProgram.init n m c A b).loose.length = m ∧
    ∀ i, i < m → iget (LinearProgram.init n m c A b).loose i = n + i := by
  have := forLoop_induction
      (fun k (t : List Nat) => t.length = m ∧ ∀ i, n + i < k → iget t i = n + i)
      n (n + m) (fun i (l : List Nat) => l.set (i - n) i) (List.replicate m 0) (by omega)
      ⟨by simp, fun i hi => absurd hi (by omega)⟩ ?_
  · exact ⟨this.1, fun i hi => this.2 i (by omega)⟩
  · rintro k t hk1 hk ⟨hl, hv⟩
    refine ⟨by rw [List.length_set, hl], ?_⟩
    intro i hi
    rw [iget_set]
    by_cases h : i = k - n
    · rw [if_pos ⟨h, by omega⟩]; omega
    · rw [if_neg (fun p => h p.1)]
      exact hv i (by omega)


theorem chooseLoosen_spec (n : Nat) (lp : LinearProgram) :
    chooseLoosen n lp = (0, -1) ∨
    ∃ i, i < n ∧ (chooseLoosen n lp).1 = iget lp.tight i ∧
      (chooseLoosen n lp).2 = vget lp.c (chooseLoosen n lp).1 := by
  unfold chooseLoosen
  refine forLoop_induction
    (fun k (p : Nat × ℚ) => p = (0, -1) ∨
      ∃ i, i < k ∧ p.1 = iget lp.tight i ∧ p.2 = vget lp.c p.1)
    0 n _ _ (Nat.zero_le _) (Or.inl rfl) ?_
  rintro k p - hk hp
  by_cases h : vget lp.c (iget lp.tight k) > p.2
  · dsimp only; rw [if_pos h]
    exact Or.inr ⟨k, by omega, rfl, rfl⟩
  · dsimp only; rw [if_neg h]
    rcases hp with hp | ⟨i, hi, h1, h2⟩
    · exact Or.inl hp
    · exact Or.inr ⟨i, by omega, h1, h2⟩

theorem chooseTighten_spec (n m : Nat) (lp : LinearProgram) (e : Nat) :
    ((chooseTighten n m lp e) = (0, 0, FLT_LOWEST) ∨
      ((chooseTighten n m lp e).2.1 < m ∧
       (chooseTighten n m lp e).1 = iget lp.loose (chooseTighten n m lp e).2.1 ∧
       mget lp.A (chooseTighten n m lp e).2.1 e ≠ 0 ∧
       (chooseTighten n m lp e).2.2 =
         mget lp.A (chooseTighten n m lp e).2.1 (n + m) /
           mget lp.A (chooseTighten n m lp e).2.1 e ∧
       (chooseTighten n m lp e).2.2 ≤ 0 ∧ FLT_LOWEST < (chooseTighten n m lp e).2.2)) ∧
    ∀ i, i < m → mget lp.A i e ≠ 0 → mget lp.A i (n + m) / mget lp.A i e ≤ 0 →
      mget lp.A i (n + m) / mget lp.A i e ≤ (chooseTighten n m lp e).2.2 := by
  unfold chooseTighten
  refine forLoop_induction
    (fun k (s : Nat × Nat × ℚ) =>
      (s = (0, 0, FLT_LOWEST) ∨
        (s.2.1 < k ∧ s.1 = iget lp.loose s.2.1 ∧ mget lp.A s.2.1 e ≠ 0 ∧
         s.2.2 = mget lp.A s.2.1 (n + m) / mget lp.A s.2.1 e ∧
         s.2.2 ≤ 0 ∧ FLT_LOWEST < s.2.2)) ∧
      ∀ i, i < k → mget lp.A i e ≠ 0 → mget lp.A i (n + m) / mget lp.A i e ≤ 0 →
        mget lp.A i (n + m) / mget lp.A i e ≤ s.2.2)
    0 m _ _ (Nat.zero_le _) ⟨Or.inl rfl, fun i hi => absurd hi (by omega)⟩ ?_
  rintro k s - hk ⟨hsel, hmax⟩
  have hlow : FLT_LOWEST ≤ s.2.2 := by
    rcases hsel with h | h
    · rw [h]
    · exact le_of_lt h.2.2.2.2.2
  by_cases hc : mget lp.A k e = 0
  · dsimp only; rw [if_pos hc]
    refine ⟨?_, ?_⟩
    · rcases hsel with h | ⟨h1, h2⟩
      · exact Or.inl h
      · exact Or.inr ⟨by omega, h2⟩
    · intro i hi hne hr
      by_cases hik : i = k
      · subst hik; exact absurd hc hne
      · exact hmax i (by omega) hne hr
  · dsimp only; rw [if_neg hc]
    by_cases hcond : mget lp.A k (n + m) / mget lp.A k e ≤ 0 ∧
        mget lp.A k (n + m) / mget lp.A k e > s.2.2
    · rw [if_pos hcond]
      refine ⟨Or.inr ⟨Nat.lt_succ_self k, rfl, hc, rfl, hcond.1, lt_of_le_of_lt hlow hcond.2⟩, ?_⟩
      intro i hi hne hr
      by_cases hik : i = k
      · subst hik; exact le_refl _
      · exact le_trans (hmax i (by omega) hne hr) (le_of_lt hcond.2)
    · rw [if_neg hcond]
      refine ⟨?_, ?_⟩
      · rcases hsel with h | ⟨h1, h2⟩
        · exact Or.inl h
        · exact Or.inr ⟨by omega, h2⟩
      · intro i hi hne hr
        by_cases hik : i = k
        · subst hik
          by_contra hlt
          exact hcond ⟨hr, lt_of_not_le hlt⟩
        · exact hmax i (by omega) hne hr

theorem newRow_self (lp : LinearProgram) (r e t : Nat) (het : e ≠ t) :
    newRow lp r e t e = 0 := by
  unfold newRow
  rw [if_neg het, if_pos rfl, zero_div]

/-- The rows of the tableau after the row-elimination loop of the pivot
(lines 158-164), run on a tableau whose pivot row has `0` in column `e`. -/
theorem elimination_spec (T : List (List ℚ)) (R C r e : Nat) (hS : Shape T R C)
    (he : e < C) (h0 : mget T r e = 0) :
    Shape (forLoop 0 R (fun i T =>
        let loosen_coeff := mget T i e
        let T₁ := forLoop 0 C (fun j T =>
          mset T i j (mget T i j + loosen_coeff * mget T r j)) T
        mset T₁ i e 0) T) R C ∧
    ∀ a b, mget (forLoop 0 R (fun i T =>
        let loosen_coeff := mget T i e
        let T₁ := forLoop 0 C (fun j T =>
          mset T i j (mget T i j + loosen_coeff * mget T r j)) T
        mset T₁ i e 0) T) a b =
      if a < R ∧ b < C then (if b = e then 0 else mget T a b + mget T a e * mget T r b)
      else mget T a b := by
  refine forLoop_induction
    (fun k U => Shape U R C ∧ ∀ a b, mget U a b =
      if a < k ∧ b < C then (if b = e then 0 else mget T a b + mget T a e * mget T r b)
      else mget T a b)
    0 R _ T (Nat.zero_le _) ⟨hS, ?_⟩ ?_
  · intro a b
    have : ¬ (a < 0 ∧ b < C) := by omega
    rw [if_neg this]
  · rintro k U - hk ⟨hU, hv⟩
    have hrow : ∀ b, mget U r b = mget T r b := by
      intro b
      rw [hv r b]
      by_cases hc : r < k ∧ b < C
      · rw [if_pos hc]
        by_cases hb : b = e
        · rw [if_pos hb, hb, h0]
        · rw [if_neg hb, h0, zero_mul, add_zero]
      · rw [if_neg hc]
    have hk' : ∀ b, mget U k b = mget T k b := by
      intro b
      rw [hv k b]
      have : ¬ (k < k ∧ b < C) := by omega
      rw [if_neg this]
    have q := forLoop_row U R C k r 0 C (fun _ x y => x + mget U k e * y) hU hk
      (Nat.zero_le _) (Nat.le_refl _)
    dsimp only at q ⊢
    refine ⟨shape_mset _ _ _ _ _ _ q.1, ?_⟩
    intro a b
    rw [mget_mset_shape _ R C k e 0 a b q.1 hk he, q.2 a b, hrow, hk', hk', hv a b]
    by_cases hak : a = k
    · subst hak
      by_cases hb : b = e
      · subst hb
        have c1 : a < a + 1 ∧ b < C := ⟨by omega, he⟩
        rw [if_pos ⟨rfl, rfl⟩, if_pos c1, if_pos rfl]
      · by_cases hbC : b < C
        · have c0 : ¬ (a = a ∧ b = e) := fun p => hb p.2
          have c1 : a < a + 1 ∧ b < C := ⟨by omega, hbC⟩
          have c2 : a = a ∧ 0 ≤ b ∧ b < C := ⟨rfl, Nat.zero_le _, hbC⟩
          rw [if_neg c0, if_pos c1, if_neg hb, if_pos c2]
        · have c0 : ¬ (a = a ∧ b = e) := fun p => hb p.2
          have c1 : ¬ (a < a + 1 ∧ b < C) := fun p => hbC p.2
          have c2 : ¬ (a = a ∧ 0 ≤ b ∧ b < C) := fun p => hbC p.2.2
          have c3 : ¬ (a < a ∧ b < C) := fun p => hbC p.2
          rw [if_neg c0, if_neg c1, if_neg c2, if_neg c3]
    · have c0 : ¬ (a = k ∧ b = e) := fun p => hak p.1
      have c2 : ¬ (a = k ∧ 0 ≤ b ∧ b < C) := fun p => hak p.1
      rw [if_neg c0, if_neg c2]
      by_cases h3 : a < k ∧ b < C
      · have : a < k + 1 ∧ b < C := ⟨by omega, h3.2⟩
        rw [if_pos h3, if_pos this]
      · have : ¬ (a < k + 1 ∧ b < C) := by omega
        rw [if_neg h3, if_neg this]

theorem init_WF (n m : Nat) (c : List ℚ) (A : List (List ℚ)) (b : List ℚ) :
    WF n m (LinearProgram.init n m c A b) := by
  have hc := init_c n m c A b
  have hA := init_A n m c A b
  have ht := init_tight n m c A b
  have hl := init_loose n m c A b
  refine ⟨hc.1, hA.1, hl.1, ht.1, ht.2, ?_, ?_, ?_, ?_⟩
  · intro i hi; rw [hl.2 i hi]; omega
  · intro i k hi hk h
    rw [hl.2 i hi, hl.2 k hk] at h; omega
  · intro i k hi hk
    rw [hl.2 i hi, hA.2]
    have c1 : ¬ (k < m ∧ n + i < n) := by omega
    have c2 : ¬ (k < m ∧ n + i = n + m) := by omega
    rw [if_neg c1, if_neg c2]
  · intro i hi
    rw [hl.2 i hi, hc.2]
    have c1 : ¬ (n + i < n) := by omega
    rw [if_neg c1]

/-- What is known of a pass of the loop that pivots: the entering variable
`e`, the leaving row `r` and the leaving variable `t` it worked with. -/
theorem iteration_next (n m : Nat) (lp lp' : LinearProgram) (hw : WF n m lp)
    (h : iteration n m lp = .next lp') :
    ∃ e t r, lp' = pivot n m lp e t r ∧ e < n ∧ 0 < vget lp.c e ∧ r < m ∧
      t = iget lp.loose r ∧ e ≠ t ∧ mget lp.A r e ≠ 0 ∧
      mget lp.A r (n + m) / mget lp.A r e ≤ 0 ∧
      ∀ i, i < m → mget lp.A i e ≠ 0 → mget lp.A i (n + m) / mget lp.A i e ≤ 0 →
        mget lp.A i (n + m) / mget lp.A i e ≤ mget lp.A r (n + m) / mget lp.A r e := by
  unfold iteration at h
  dsimp only at h
  by_cases h1 : (chooseLoosen n lp).2 ≤ 0
  · rw [if_pos h1] at h; cases h
  rw [if_neg h1] at h
  by_cases h2 : (chooseTighten n m lp (chooseLoosen n lp).1).2.2 = FLT_LOWEST
  · rw [if_pos h2] at h; cases h
  rw [if_neg h2] at h
  have hpos : 0 < (chooseLoosen n lp).2 := lt_of_not_le h1
  obtain ⟨i, hi, he1, he2⟩ : ∃ i, i < n ∧ (chooseLoosen n lp).1 = iget lp.tight i ∧
      (chooseLoosen n lp).2 = vget lp.c (chooseLoosen n lp).1 := by
    rcases chooseLoosen_spec n lp with h0 | h0
    · rw [h0] at hpos; norm_num at hpos
    · exact h0
  obtain ⟨hsel, hmax⟩ := chooseTighten_spec n m lp (chooseLoosen n lp).1
  rcases hsel with h0 | ⟨s1, s2, s3, s4, s5, -⟩
  · rw [h0] at h2; exact absurd rfl h2
  have hc_pos : 0 < vget lp.c (chooseLoosen n lp).1 := he2 ▸ hpos
  refine ⟨(chooseLoosen n lp).1, (chooseTighten n m lp (chooseLoosen n lp).1).1,
    (chooseTighten n m lp (chooseLoosen n lp).1).2.1, ?_, ?_, hc_pos, s1, s2, ?_, s3, ?_, ?_⟩
  · injection h with h; exact h.symm
  · rw [he1, hw.tight_id i hi]; exact hi
  · intro heq
    have := hw.c_zero _ s1
    rw [← s2, ← heq] at this
    rw [this] at hc_pos
    exact lt_irrefl _ hc_pos
  · rw [← s4]; exact s5
  · intro i hi hne hr
    rw [← s4]; exact hmax i hi hne hr

/-- What the pivot step (lines 137-171) leaves in the fields, entry by entry. -/
theorem pivot_spec (n m : Nat) (lp : LinearProgram) (e t r : Nat)
    (hS : Shape lp.A m (n + m + 1)) (hc : lp.c.length = n + m + 1)
    (hr : r < m) (he : e < n + m) (ht : t < n + m) (het : e ≠ t) :
    Shape (pivot n m lp e t r).A m (n + m + 1) ∧
    (pivot n m lp e t r).c.length = n + m + 1 ∧
    (pivot n m lp e t r).loose = lp.loose.set r e ∧
    (pivot n m lp e t r).tight = lp.tight ∧
    (∀ b, b < n + m + 1 → mget (pivot n m lp e t r).A r b = newRow lp r e t b) ∧
    (∀ a b, a < m → a ≠ r → b < n + m + 1 → mget (pivot n m lp e t r).A a b =
      if b = e then 0 else mget lp.A a b + mget lp.A a e * newRow lp r e t b) ∧
    (∀ b, b < n + m + 1 → vget (pivot n m lp e t r).c b =
      if b = e then 0 else vget lp.c b + vget lp.c e * newRow lp r e t b) := by
  obtain ⟨A₁, hA₁⟩ : ∃ A₁, A₁ = mset lp.A r e 0 := ⟨_, rfl⟩
  obtain ⟨A₂, hA₂⟩ : ∃ A₂, A₂ = mset A₁ r t (-1) := ⟨_, rfl⟩
  obtain ⟨A₃, hA₃⟩ : ∃ A₃, A₃ = forLoop 0 (n + m + 1) (fun i T =>
      mset T r i (mget T r i / -(mget lp.A r e))) A₂ := ⟨_, rfl⟩
  obtain ⟨A₄, hA₄⟩ : ∃ A₄, A₄ = forLoop 0 m (fun i T =>
      let loosen_coeff := mget T i e
      let T₁ := forLoop 0 (n + m + 1) (fun j T =>
          mset T i j (mget T i j + loosen_coeff * mget T r j)) T
      mset T₁ i e 0) A₃ := ⟨_, rfl⟩
  obtain ⟨c₁, hc₁⟩ : ∃ c₁, c₁ = forLoop 0 (n + m + 1) (fun i (u : List ℚ) =>
      u.set i (vget u i + vget lp.c e * mget A₄ r i)) lp.c := ⟨_, rfl⟩
  have hpiv : pivot n m lp e t r =
      { c := c₁.set e 0, A := A₄, loose := lp.loose.set r e, tight := lp.tight } := by
    subst hc₁ hA₄ hA₃ hA₂ hA₁; rfl
  have S1 : Shape A₁ m (n + m + 1) := hA₁ ▸ shape_mset _ _ _ _ _ _ hS
  have S2 : Shape A₂ m (n + m + 1) := hA₂ ▸ shape_mset _ _ _ _ _ _ S1
  have v2 : ∀ a b, mget A₂ a b =
      if a = r ∧ b = t then -1 else if a = r ∧ b = e then 0 else mget lp.A a b := by
    intro a b
    rw [hA₂, mget_mset_shape A₁ m (n + m + 1) r t _ a b S1 hr (by omega),
      hA₁, mget_mset_shape lp.A m (n + m + 1) r e _ a b hS hr (by omega)]
  have q3 := forLoop_row A₂ m (n + m + 1) r r 0 (n + m + 1)
    (fun _ x _ => x / -(mget lp.A r e)) S2 hr (Nat.zero_le _) (Nat.le_refl _)
  dsimp only at q3
  rw [← hA₃] at q3
  have v3r : ∀ b, b < n + m + 1 → mget A₃ r b = newRow lp r e t b := by
    intro b hb
    rw [q3.2 r b, if_pos ⟨rfl, Nat.zero_le _, hb⟩, v2 r b]
    unfold newRow
    by_cases h1 : b = t
    · rw [if_pos ⟨rfl, h1⟩, if_pos h1]
    · have : ¬ (r = r ∧ b = t) := fun p => h1 p.2
      rw [if_neg this, if_neg h1]
      by_cases h2 : b = e
      · rw [if_pos ⟨rfl, h2⟩, if_pos h2]
      · have : ¬ (r = r ∧ b = e) := fun p => h2 p.2
        rw [if_neg this, if_neg h2]
  have v3o : ∀ a b, a ≠ r → mget A₃ a b = mget lp.A a b := by
    intro a b ha
    have c1 : ¬ (a = r ∧ 0 ≤ b ∧ b < n + m + 1) := fun p => ha p.1
    have c2 : ¬ (a = r ∧ b = t) := fun p => ha p.1
    have c3 : ¬ (a = r ∧ b = e) := fun p => ha p.1
    rw [q3.2 a b, if_neg c1, v2 a b, if_neg c2, if_neg c3]
  have v3e : mget A₃ r e = 0 := by
    rw [v3r e (by omega), newRow_self lp r e t het]
  have q4 := elimination_spec A₃ m (n + m + 1) r e q3.1 (by omega) v3e
  rw [← hA₄] at q4
  have v4r : ∀ b, b < n + m + 1 → mget A₄ r b = newRow lp r e t b := by
    intro b hb
    rw [q4.2 r b, if_pos ⟨hr, hb⟩, v3e, zero_mul, add_zero]
    by_cases h : b = e
    · rw [if_pos h, h, newRow_self lp r e t het]
    · rw [if_neg h, v3r b hb]
  have q5 := forLoop_vec lp.c 0 (n + m + 1) (fun i x => x + vget lp.c e * mget A₄ r i)
    (Nat.zero_le _) (by omega)
  dsimp only at q5
  rw [← hc₁] at q5
  rw [hpiv]
  refine ⟨q4.1, ?_, rfl, rfl, v4r, ?_, ?_⟩
  · show (c₁.set e 0).length = _
    rw [List.length_set, q5.1, hc]
  · intro a b ha har hb
    show mget A₄ a b = _
    rw [q4.2 a b, if_pos ⟨ha, hb⟩, v3o a b har, v3o a e har, v3r b hb]
  · intro b hb
    show vget (c₁.set e 0) b = _
    rw [vget_set]
    by_cases h : b = e
    · have : b = e ∧ e < c₁.length := ⟨h, by rw [q5.1, hc]; omega⟩
      rw [if_pos this, if_pos h]
    · have : ¬ (b = e ∧ e < c₁.length) := fun p => h p.1
      rw [if_neg this, if_neg h, q5.2 b, if_pos ⟨Nat.zero_le _, hb⟩, v4r b hb]

theorem newRow_basic (n m : Nat) (lp : LinearProgram) (hw : WF n m lp) (r e t i : Nat)
    (hr : r < m) (hi : i < m) (h1 : iget lp.loose i ≠ t) (h2 : iget lp.loose i ≠ e) :
    newRow lp r e t (iget lp.loose i) = 0 := by
  unfold newRow
  rw [if_neg h1, if_neg h2, hw.col_zero i r hi hr, zero_div]

/-- The pivot keeps the fields well formed. -/
theorem pivot_WF (n m : Nat) (lp : LinearProgram) (hw : WF n m lp) (e r : Nat)
    (he : e < n) (hpos : 0 < vget lp.c e) (hr : r < m) :
    WF n m (pivot n m lp e (iget lp.loose r) r) := by
  have hne : ∀ i, i < m → iget lp.loose i ≠ e := by
    intro i hi heq
    have := hw.c_zero i hi
    rw [heq] at this
    rw [this] at hpos
    exact lt_irrefl _ hpos
  have het : e ≠ iget lp.loose r := fun h => hne r hr h.symm
  obtain ⟨p1, p2, p3, p4, p5, p6, p7⟩ := pivot_spec n m lp e (iget lp.loose r) r
    hw.A_shape hw.c_len hr (by omega) (hw.loose_lt r hr) het
  have hl : ∀ i, iget (pivot n m lp e (iget lp.loose r) r).loose i =
      if i = r then e else iget lp.loose i := by
    intro i
    rw [p3, iget_set]
    by_cases h : i = r
    · rw [if_pos ⟨h, by rw [hw.loose_len]; exact hr⟩, if_pos h]
    · rw [if_neg (fun q => h q.1), if_neg h]
  have hcol : ∀ i k, i < m → k < m →
      mget (pivot n m lp e (iget lp.loose r) r).A k
        (iget (pivot n m lp e (iget lp.loose r) r).loose i) = 0 := by
    intro i k hi hk
    rw [hl i]
    by_cases hir : i = r
    · rw [if_pos hir]
      by_cases hkr : k = r
      · rw [hkr, p5 e (by omega), newRow_self lp r e _ het]
      · rw [p6 k e hk hkr (by omega), if_pos rfl]
    · rw [if_neg hir]
      have hv1 : iget lp.loose i ≠ iget lp.loose r :=
        fun h => hir (hw.loose_inj i r hi hr h)
      have hv2 := hne i hi
      have hlt := hw.loose_lt i hi
      by_cases hkr : k = r
      · rw [hkr, p5 _ (by omega), newRow_basic n m lp hw r e _ i hr hi hv1 hv2]
      · rw [p6 k _ hk hkr (by omega), if_neg hv2, hw.col_zero i k hi hk,
          newRow_basic n m lp hw r e _ i hr hi hv1 hv2, mul_zero, add_zero]
  refine ⟨p2, p1, ?_, ?_, ?_, ?_, ?_, hcol, ?_⟩
  · rw [p3, List.length_set]; exact hw.loose_len
  · rw [p4]; exact hw.tight_len
  · intro i hi; rw [p4]; exact hw.tight_id i hi
  · intro i hi
    rw [hl i]
    by_cases h : i = r
    · rw [if_pos h]; omega
    · rw [if_neg h]; exact hw.loose_lt i hi
  · intro i k hi hk h
    rw [hl i, hl k] at h
    by_cases h1 : i = r
    · by_cases h2 : k = r
      · rw [h1, h2]
      · rw [if_pos h1, if_neg h2] at h
        exact absurd h.symm (hne k hk)
    · by_cases h2 : k = r
      · rw [if_neg h1, if_pos h2] at h
        exact absurd h (hne i hi)
      · rw [if_neg h1, if_neg h2] at h
        exact hw.loose_inj i k hi hk h
  · intro i hi
    rw [hl i]
    by_cases hir : i = r
    · rw [if_pos hir, p7 e (by omega), if_pos rfl]
    · rw [if_neg hir]
      have hv1 : iget lp.loose i ≠ iget lp.loose r :=
        fun h => hir (hw.loose_inj i r hi hr h)
      have hv2 := hne i hi
      have hlt := hw.loose_lt i hi
      rw [p7 _ (by omega), if_neg hv2, hw.c_zero i hi,
        newRow_basic n m lp hw r e _ i hr hi hv1 hv2, mul_zero, add_zero]

theorem iteration_WF (n m : Nat) (lp lp' : LinearProgram) (hw : WF n m lp)
    (h : iteration n m lp = .next lp') : WF n m lp' := by
  obtain ⟨e, t, r, h1, h2, h3, h4, h5, -⟩ := iteration_next n m lp lp' hw h
  rw [h1, h5]
  exact pivot_WF n m lp hw e r h2 h3 h4

theorem afterPivots_WF (n m k : Nat) (lp lp' : LinearProgram) (hw : WF n m lp)
    (h : afterPivots n m k lp = some lp') : WF n m lp' := by
  induction k generalizing lp with
  | zero =>
    simp only [afterPivots, Option.some.injEq] at h
    exact h ▸ hw
  | succ k ih =>
    unfold afterPivots at h
    cases hit : iteration n m lp with
    | ret x => rw [hit] at h; cases h
    | next lp₁ =>
      rw [hit] at h
      exact ih lp₁ (iteration_WF n m lp lp₁ hw hit) h

theorem afterPivots_induction (n m : Nat) (P : LinearProgram → Prop)
    (hstep : ∀ lp lp', WF n m lp → P lp → iteration n m lp = .next lp' → P lp')
    (k : Nat) (lp lp' : LinearProgram) (hw : WF n m lp) (h0 : P lp)
    (h : afterPivots n m k lp = some lp') : P lp' := by
  induction k generalizing lp with
  | zero =>
    simp only [afterPivots, Option.some.injEq] at h
    exact h ▸ h0
  | succ k ih =>
    unfold afterPivots at h
    cases hit : iteration n m lp with
    | ret x => rw [hit] at h; cases h
    | next lp₁ =>
      rw [hit] at h
      exact ih lp₁ (iteration_WF n m lp lp₁ hw hit) (hstep lp lp₁ hw h0 hit) h

theorem newRow_const (n m : Nat) (lp : LinearProgram) (r e t : Nat)
    (he : e < n + m) (ht : t < n + m) :
    newRow lp r e t (n + m) = -(mget lp.A r (n + m) / mget lp.A r e) := by
  unfold newRow
  have h1 : ¬ (n + m = t) := by omega
  have h2 : ¬ (n + m = e) := by omega
  rw [if_neg h1, if_neg h2, div_neg]

/-- A pass of the loop that pivots keeps every row constant nonnegative. -/
theorem iteration_feasible (n m : Nat) (lp lp' : LinearProgram) (hw : WF n m lp)
    (hf : ∀ i, i < m → 0 ≤ mget lp.A i (n + m))
    (h : iteration n m lp = .next lp') : ∀ i, i < m → 0 ≤ mget lp'.A i (n + m) := by
  obtain ⟨e, t, r, h1, h2, h3, h4, h5, h6, h7, h8, h9⟩ := iteration_next n m lp lp' hw h
  have ht : t < n + m := h5 ▸ hw.loose_lt r h4
  obtain ⟨-, -, -, -, p5, p6, -⟩ := pivot_spec n m lp e t r
    hw.A_shape hw.c_len h4 (by omega) ht h6
  have hN := newRow_const n m lp r e t (by omega) ht
  have hN0 : 0 ≤ newRow lp r e t (n + m) := by rw [hN]; linarith
  intro i hi
  rw [h1]
  by_cases hir : i = r
  · rw [hir, p5 (n + m) (by omega)]; exact hN0
  · have hne : ¬ (n + m = e) := by omega
    rw [p6 i (n + m) hi hir (by omega), if_neg hne]
    rcases lt_or_le (mget lp.A i e) 0 with hq | hq
    · have hr : mget lp.A i (n + m) / mget lp.A i e ≤ 0 :=
        div_nonpos_of_nonneg_of_nonpos (hf i hi) (le_of_lt hq)
      have := h9 i hi (ne_of_lt hq) hr
      rw [div_le_iff_of_neg hq] at this
      rw [hN]
      linarith
    · have := mul_nonneg hq hN0
      linarith [hf i hi]

/-- A pass of the loop that pivots does not decrease the objective constant. -/
theorem iteration_objective_le (n m : Nat) (lp lp' : LinearProgram) (hw : WF n m lp)
    (h : iteration n m lp = .next lp') : objective n m lp ≤ objective n m lp' := by
  obtain ⟨e, t, r, h1, h2, h3, h4, h5, h6, h7, h8, -⟩ := iteration_next n m lp lp' hw h
  have ht : t < n + m := h5 ▸ hw.loose_lt r h4
  obtain ⟨-, -, -, -, -, -, p7⟩ := pivot_spec n m lp e t r
    hw.A_shape hw.c_len h4 (by omega) ht h6
  have hN := newRow_const n m lp r e t (by omega) ht
  have hN0 : 0 ≤ newRow lp r e t (n + m) := by rw [hN]; linarith
  have hne : ¬ (n + m = e) := by omega
  unfold objective
  rw [h1, p7 (n + m) (by omega), if_neg hne]
  have := mul_nonneg (le_of_lt h3) hN0
  linarith

theorem sum_newRow_of (n m : Nat) (lp : LinearProgram) (e r : Nat)
    (hlt : iget lp.loose r < n + m) (hself : mget lp.A r (iget lp.loose r) = 0)
    (he : e < n + m) (het : e ≠ iget lp.loose r)
    (hp : mget lp.A r e ≠ 0) (x : Nat → ℚ) :
    ∑ j in Finset.range (n + m), newRow lp r e (iget lp.loose r) j * x j =
      (x (iget lp.loose r) - ∑ j in Finset.range (n + m), mget lp.A r j * x j) /
        mget lp.A r e + x e := by
  have pt : ∀ j ∈ Finset.range (n + m), newRow lp r e (iget lp.loose r) j * x j =
      ((if j = iget lp.loose r then x j / mget lp.A r e else 0) +
        (if j = e then x j else 0)) - (mget lp.A r j * x j) / mget lp.A r e := by
    intro j _
    unfold newRow
    by_cases h1 : j = iget lp.loose r
    · have h2 : ¬ j = e := fun h => het (h ▸ h1)
      rw [if_pos h1, if_pos h1, if_neg h2, h1, hself]
      field_simp
    · rw [if_neg h1, if_neg h1]
      by_cases h2 : j = e
      · rw [if_pos h2, if_pos h2, h2]
        field_simp
      · rw [if_neg h2, if_neg h2, div_neg]
        ring
  have m1 : iget lp.loose r ∈ Finset.range (n + m) := Finset.mem_range.2 hlt
  have m2 : e ∈ Finset.range (n + m) := Finset.mem_range.2 he
  rw [Finset.sum_congr rfl pt, Finset.sum_sub_distrib, Finset.sum_add_distrib,
    Finset.sum_ite_eq', Finset.sum_ite_eq', if_pos m1, if_pos m2, ← Finset.sum_div]
  ring

theorem sum_newRow (n m : Nat) (lp : LinearProgram) (hw : WF n m lp) (e r : Nat)
    (he : e < n + m) (hr : r < m) (het : e ≠ iget lp.loose r)
    (hp : mget lp.A r e ≠ 0) (x : Nat → ℚ) :
    ∑ j in Finset.range (n + m), newRow lp r e (iget lp.loose r) j * x j =
      (x (iget lp.loose r) - ∑ j in Finset.range (n + m), mget lp.A r j * x j) /
        mget lp.A r e + x e :=
  sum_newRow_of n m lp e r (hw.loose_lt r hr) (hw.col_zero r r hr hr) he het hp x

theorem sum_eliminated (S : Finset Nat) (e : Nat) (he : e ∈ S) (F N x : Nat → ℚ) (q : ℚ)
    (hN : N e = 0) (hq : q = F e) :
    ∑ j in S, (if j = e then 0 else F j + q * N j) * x j =
      ∑ j in S, F j * x j + q * ∑ j in S, N j * x j - q * x e := by
  have pt : ∀ j ∈ S, (if j = e then 0 else F j + q * N j) * x j =
      (F j * x j + q * (N j * x j)) - (if j = e then q * x j else 0) := by
    intro j _
    by_cases h : j = e
    · rw [if_pos h, if_pos h, h, hN, hq]; ring
    · rw [if_neg h, if_neg h]; ring
  rw [Finset.sum_congr rfl pt, Finset.sum_sub_distrib, Finset.sum_add_distrib,
    Finset.sum_ite_eq', if_pos he, ← Finset.mul_sum]

/-- The pivot rewrites the dictionary into an equivalent one: the same
assignments satisfy the row equations before and after, and on them the
objective row has the same value.  Only the sizes of the fields and the
self column of the pivot row are used. -/
theorem pivot_dictionary_of (n m : Nat) (lp : LinearProgram) (e r : Nat)
    (hS : Shape lp.A m (n + m + 1)) (hc : lp.c.length = n + m + 1)
    (hlen : lp.loose.length = m) (ht : iget lp.loose r < n + m)
    (hself : mget lp.A r (iget lp.loose r) = 0)
    (he : e < n + m) (hr : r < m) (het : e ≠ iget lp.loose r)
    (hp : mget lp.A r e ≠ 0) (x : Nat → ℚ) :
    (rowsHold n m (pivot n m lp e (iget lp.loose r) r) x ↔ rowsHold n m lp x) ∧
    (rowsHold n m lp x →
      objExpr n m (pivot n m lp e (iget lp.loose r) r) x = objExpr n m lp x) := by
  obtain ⟨-, -, p3, -, p5, p6, p7⟩ := pivot_spec n m lp e (iget lp.loose r) r
    hS hc hr he ht het
  have hl : ∀ i, iget (pivot n m lp e (iget lp.loose r) r).loose i =
      if i = r then e else iget lp.loose i := by
    intro i
    rw [p3, iget_set]
    by_cases h : i = r
    · rw [if_pos ⟨h, by rw [hlen]; exact hr⟩, if_pos h]
    · rw [if_neg (fun q => h q.1), if_neg h]
  have me : e ∈ Finset.range (n + m) := Finset.mem_range.2 he
  have hN := sum_newRow_of n m lp e r ht hself he het hp x
  have hK := newRow_const n m lp r e (iget lp.loose r) he ht
  have hNe := newRow_self lp r e (iget lp.loose r) het
  have sr : ∑ j in Finset.range (n + m), mget (pivot n m lp e (iget lp.loose r) r).A r j * x j =
      ∑ j in Finset.range (n + m), newRow lp r e (iget lp.loose r) j * x j := by
    refine Finset.sum_congr rfl (fun j hj => ?_)
    have := Finset.mem_range.1 hj
    rw [p5 j (by omega)]
  have sa : ∀ a, a < m → a ≠ r →
      ∑ j in Finset.range (n + m), mget (pivot n m lp e (iget lp.loose r) r).A a j * x j =
      ∑ j in Finset.range (n + m), mget lp.A a j * x j +
        mget lp.A a e * ∑ j in Finset.range (n + m), newRow lp r e (iget lp.loose r) j * x j -
        mget lp.A a e * x e := by
    intro a ha har
    rw [← sum_eliminated (Finset.range (n + m)) e me (mget lp.A a)
      (newRow lp r e (iget lp.loose r)) x (mget lp.A a e) hNe rfl]
    refine Finset.sum_congr rfl (fun j hj => ?_)
    have := Finset.mem_range.1 hj
    rw [p6 a j ha har (by omega)]
  have sc : ∑ j in Finset.range (n + m), vget (pivot n m lp e (iget lp.loose r) r).c j * x j =
      ∑ j in Finset.range (n + m), vget lp.c j * x j +
        vget lp.c e * ∑ j in Finset.range (n + m), newRow lp r e (iget lp.loose r) j * x j -
        vget lp.c e * x e := by
    rw [← sum_eliminated (Finset.range (n + m)) e me (vget lp.c)
      (newRow lp r e (iget lp.loose r)) x (vget lp.c e) hNe rfl]
    refine Finset.sum_congr rfl (fun j hj => ?_)
    have := Finset.mem_range.1 hj
    rw [p7 j (by omega)]
  have hcn : ¬ (n + m = e) := by omega
  -- the equation of the pivot row, before and after
  have row_r : x e = mget (pivot n m lp e (iget lp.loose r) r).A r (n + m) +
        ∑ j in Finset.range (n + m), mget (pivot n m lp e (iget lp.loose r) r).A r j * x j ↔
      x (iget lp.loose r) = mget lp.A r (n + m) +
        ∑ j in Finset.range (n + m), mget lp.A r j * x j := by
    rw [sr, hN, p5 (n + m) (by omega), hK]
    constructor
    · intro h
      have h' : (x (iget lp.loose r) - mget lp.A r (n + m) -
          ∑ j in Finset.range (n + m), mget lp.A r j * x j) / mget lp.A r e = 0 := by
        have e1 : -(mget lp.A r (n + m) / mget lp.A r e) +
            ((x (iget lp.loose r) - ∑ j in Finset.range (n + m), mget lp.A r j * x j) /
              mget lp.A r e + x e) =
            x e + (x (iget lp.loose r) - mget lp.A r (n + m) -
              ∑ j in Finset.range (n + m), mget lp.A r j * x j) / mget lp.A r e := by ring
        rw [e1] at h
        linarith
      rcases div_eq_zero_iff.1 h' with h0 | h0
      · linarith
      · exact absurd h0 hp
    · intro h
      rw [h]; ring
  -- the equation of every other row, given that of the pivot row
  have row_a : x (iget lp.loose r) = mget lp.A r (n + m) +
        ∑ j in Finset.range (n + m), mget lp.A r j * x j →
      ∀ a, a < m → a ≠ r →
        mget (pivot n m lp e (iget lp.loose r) r).A a (n + m) +
          ∑ j in Finset.range (n + m), mget (pivot n m lp e (iget lp.loose r) r).A a j * x j =
        mget lp.A a (n + m) + ∑ j in Finset.range (n + m), mget lp.A a j * x j := by
    intro h a ha har
    rw [sa a ha har, hN, p6 a (n + m) ha har (by omega), if_neg hcn, hK, h]
    ring
  refine ⟨⟨?_, ?_⟩, ?_⟩
  · intro h
    have hr0 := row_r.1 (by have := h r hr; rwa [hl r, if_pos rfl] at this)
    intro a ha
    by_cases har : a = r
    · rw [har]; exact hr0
    · have := h a ha
      rw [hl a, if_neg har, row_a hr0 a ha har] at this
      exact this
  · intro h
    have hr0 := h r hr
    intro a ha
    rw [hl a]
    by_cases har : a = r
    · rw [if_pos har, har]; exact row_r.2 hr0
    · rw [if_neg har, row_a hr0 a ha har]; exact h a ha
  · intro h
    have hr0 := h r hr
    unfold objExpr
    rw [sc, hN, p7 (n + m) (by omega), if_neg hcn, hK, hr0]
    ring

/-- The pivot rewrites the dictionary into an equivalent one: the same
assignments satisfy the row equations before and after, and on them the
objective row has the same value. -/
theorem pivot_dictionary (n m : Nat) (lp : LinearProgram) (hw : WF n m lp) (e r : Nat)
    (he : e < n + m) (hr : r < m) (hne : ∀ i, i < m → iget lp.loose i ≠ e)
    (hp : mget lp.A r e ≠ 0) (x : Nat → ℚ) :
    (rowsHold n m (pivot n m lp e (iget lp.loose r) r) x ↔ rowsHold n m lp x) ∧
    (rowsHold n m lp x →
      objExpr n m (pivot n m lp e (iget lp.loose r) r) x = objExpr n m lp x) :=
  pivot_dictionary_of n m lp e r hw.A_shape hw.c_len hw.loose_len (hw.loose_lt r hr)
    (hw.col_zero r r hr hr) he hr (fun h => hne r hr h.symm) hp x

theorem currentValue_loose (n m : Nat) (lp : LinearProgram) (hw : WF n m lp) (i : Nat)
    (hi : i < m) : currentValue n m lp (iget lp.loose i) = mget lp.A i (n + m) := by
  unfold currentValue
  cases hf : (List.range m).find? (fun k => decide (iget lp.loose k = iget lp.loose i)) with
  | none =>
    have := List.find?_eq_none.1 hf i (List.mem_range.2 hi)
    simp at this
  | some k =>
    have h1 := List.find?_some hf
    have h2 := List.mem_range.1 (List.mem_of_find?_eq_some hf)
    have h3 : iget lp.loose k = iget lp.loose i := by simpa using h1
    rw [hw.loose_inj k i h2 hi h3]

theorem currentValue_cases (n m : Nat) (lp : LinearProgram) (v : Nat) :
    currentValue n m lp v = 0 ∨ ∃ i, i < m ∧ iget lp.loose i = v := by
  unfold currentValue
  cases hf : (List.range m).find? (fun k => decide (iget lp.loose k = v)) with
  | none => exact Or.inl rfl
  | some k =>
    have h1 := List.find?_some hf
    have h2 := List.mem_range.1 (List.mem_of_find?_eq_some hf)
    exact Or.inr ⟨k, h2, by simpa using h1⟩

/-- The current basic solution satisfies the row equations of the tableau. -/
theorem rowsHold_currentValue (n m : Nat) (lp : LinearProgram) (hw : WF n m lp) :
    rowsHold n m lp (currentValue n m lp) := by
  intro i hi
  have hz : ∑ j in Finset.range (n + m), mget lp.A i j * currentValue n m lp j = 0 := by
    refine Finset.sum_eq_zero (fun j _ => ?_)
    rcases currentValue_cases n m lp j with h | ⟨k, hk, h⟩
    · rw [h, mul_zero]
    · rw [← h, hw.col_zero k i hk hi, zero_mul]
  rw [hz, add_zero, currentValue_loose n m lp hw i hi]

/-- At the current basic solution the objective row is worth its constant. -/
theorem objExpr_currentValue (n m : Nat) (lp : LinearProgram) (hw : WF n m lp) :
    objExpr n m lp (currentValue n m lp) = objective n m lp := by
  unfold objExpr objective
  have hz : ∑ j in Finset.range (n + m), vget lp.c j * currentValue n m lp j = 0 := by
    refine Finset.sum_eq_zero (fun j _ => ?_)
    rcases currentValue_cases n m lp j with h | ⟨k, hk, h⟩
    · rw [h, mul_zero]
    · rw [← h, hw.c_zero k hk, zero_mul]
  rw [hz, add_zero]

/-- The objective row of the constructed instance is the original objective. -/
theorem objExpr_init (n m : Nat) (c : List ℚ) (A : List (List ℚ)) (b : List ℚ) (x : Nat → ℚ) :
    objExpr n m (LinearProgram.init n m c A b) x = ∑ j in Finset.range n, vget c j * x j := by
  unfold objExpr
  have hc := (init_c n m c A b).2
  have h1 : ¬ (n + m < n) := by omega
  rw [hc (n + m), if_neg h1, zero_add, Finset.sum_range_add]
  have hz : ∑ j in Finset.range m, vget (LinearProgram.init n m c A b).c (n + j) * x (n + j) = 0 := by
    refine Finset.sum_eq_zero (fun j _ => ?_)
    have h2 : ¬ (n + j < n) := by omega
    rw [hc (n + j), if_neg h2, zero_mul]
  rw [hz, add_zero]
  refine Finset.sum_congr rfl (fun j hj => ?_)
  rw [hc j, if_pos (Finset.mem_range.1 hj)]

/-- Every assignment satisfying the rows of a state reached by pivots
satisfies the rows of the state the pivots started from, and both objective
rows give it the same value. -/
theorem afterPivots_dictionary (n m k : Nat) (lp₀ lp : LinearProgram) (hw : WF n m lp₀)
    (h : afterPivots n m k lp₀ = some lp) (x : Nat → ℚ) (hx : rowsHold n m lp x) :
    rowsHold n m lp₀ x ∧ objExpr n m lp x = objExpr n m lp₀ x := by
  have key := afterPivots_induction n m
    (fun s => ∀ x, rowsHold n m s x → rowsHold n m lp₀ x ∧ objExpr n m s x = objExpr n m lp₀ x)
    ?_ k lp₀ lp hw (fun x hx => ⟨hx, rfl⟩) h
  · exact key x hx
  · intro s s' hs hP hit y hy
    obtain ⟨e, t, r, h1, h2, h3, h4, h5, h6, h7, -⟩ := iteration_next n m s s' hs hit
    have hne : ∀ i, i < m → iget s.loose i ≠ e := by
      intro i hi heq
      have := hs.c_zero i hi
      rw [heq] at this
      rw [this] at h3
      exact lt_irrefl _ h3
    rw [h1, h5] at hy ⊢
    obtain ⟨d1, d2⟩ := pivot_dictionary n m s hs e r (by omega) h4 hne h7 y
    have hy' := d1.1 hy
    obtain ⟨q1, q2⟩ := hP y hy'
    exact ⟨q1, by rw [d2 hy', q2]⟩

theorem solve_succ (n m k : Nat) (lp : LinearProgram) (r : Exit × LinearProgram)
    (h : solve n m k lp = some r) : solve n m (k + 1) lp = some r := by
  induction k generalizing lp with
  | zero => simp [solve] at h
  | succ k ih =>
    rw [solve] at h ⊢
    cases hit : iteration n m lp with
    | ret x => rw [hit] at h; exact h
    | next lp₁ =>
      rw [hit] at h
      exact ih lp₁ h

/-- More fuel does not change what `solve()` returns. -/
theorem solve_add (n m k d : Nat) (lp : LinearProgram) (r : Exit × LinearProgram)
    (h : solve n m k lp = some r) : solve n m (k + d) lp = some r := by
  induction d with
  | zero => exact h
  | succ d ih => exact solve_succ n m (k + d) lp r ih

/-- What `solve()` returns does not depend on the fuel it was given. -/
theorem solve_unique (n m k₁ k₂ : Nat) (lp : LinearProgram) (r₁ r₂ : Exit × LinearProgram)
    (h₁ : solve n m k₁ lp = some r₁) (h₂ : solve n m k₂ lp = some r₂) : r₁ = r₂ := by
  rcases Nat.le_total k₁ k₂ with h | h
  · obtain ⟨d, rfl⟩ := Nat.exists_eq_add_of_le h
    have := solve_add n m k₁ d lp r₁ h₁
    rw [this] at h₂
    exact Option.some.inj h₂
  · obtain ⟨d, rfl⟩ := Nat.exists_eq_add_of_le h
    have := solve_add n m k₂ d lp r₂ h₂
    rw [this] at h₁
    exact (Option.some.inj h₁).symm

/-- When `solve()` returns, it has done some number of pivots and then a pass
of its loop that took the exit it reports. -/
theorem solve_afterPivots (n m fuel : Nat) (lp lp' : LinearProgram) (x : Exit)
    (h : solve n m fuel lp = some (x, lp')) :
    ∃ k, k < fuel ∧ afterPivots n m k lp = some lp' ∧ iteration n m lp' = .ret x := by
  induction fuel generalizing lp with
  | zero => simp [solve] at h
  | succ f ih =>
    rw [solve] at h
    cases hit : iteration n m lp with
    | ret y =>
      rw [hit] at h
      simp only [Option.some.injEq, Prod.mk.injEq] at h
      refine ⟨0, Nat.succ_pos f, ?_, ?_⟩
      · rw [afterPivots, h.2]
      · rw [← h.2, hit, h.1]
    | next lp₁ =>
      rw [hit] at h
      obtain ⟨k, hk, h1, h2⟩ := ih lp₁ h
      refine ⟨k + 1, by omega, ?_, h2⟩
      rw [afterPivots, hit]
      exact h1

theorem list_eq_of_iget (l : List Nat) (k : Nat) (f : Nat → Nat) (hl : l.length = k)
    (h : ∀ i, i < k → iget l i = f i) : l = (List.range k).map f := by
  apply List.ext_getElem?
  intro i
  by_cases hi : i < k
  · have h1 : i < l.length := by rw [hl]; exact hi
    have h2 := h i hi
    unfold iget at h2
    rw [List.getD_eq_getElem?_getD, List.getElem?_eq_getElem h1] at h2
    rw [List.getElem?_eq_getElem h1, List.getElem?_map, List.getElem?_range hi]
    simp only [Option.getD_some] at h2
    simp [h2]
  · have h1 : l.length ≤ i := by rw [hl]; omega
    rw [List.getElem?_eq_none h1, List.getElem?_eq_none (by simp; omega)]

/-- What the scan over `tight` (lines 93-104) leaves in `highest_coeff` and
`loosen`: the largest of `-1` and the coefficients scanned, and the first
variable at which that largest coefficient was met. -/
theorem chooseLoosen_max (n : Nat) (lp : LinearProgram) :
    (∀ i, i < n → vget lp.c (iget lp.tight i) ≤ (chooseLoosen n lp).2) ∧
    (chooseLoosen n lp = (0, -1) ∨
      ∃ i, i < n ∧ (chooseLoosen n lp).1 = iget lp.tight i ∧
        (chooseLoosen n lp).2 = vget lp.c (iget lp.tight i) ∧
        ∀ k, k < i → vget lp.c (iget lp.tight k) < vget lp.c (iget lp.tight i)) := by
  unfold chooseLoosen
  refine forLoop_induction
    (fun k (p : Nat × ℚ) =>
      (∀ i, i < k → vget lp.c (iget lp.tight i) ≤ p.2) ∧
      (p = (0, -1) ∨
        ∃ i, i < k ∧ p.1 = iget lp.tight i ∧ p.2 = vget lp.c (iget lp.tight i) ∧
          ∀ j, j < i → vget lp.c (iget lp.tight j) < vget lp.c (iget lp.tight i)))
    0 n _ _ (Nat.zero_le _) ⟨fun i hi => absurd hi (by omega), Or.inl rfl⟩ ?_
  rintro k p - hk ⟨hle, hsel⟩
  by_cases h : vget lp.c (iget lp.tight k) > p.2
  · dsimp only; rw [if_pos h]
    refine ⟨?_, Or.inr ⟨k, Nat.lt_succ_self k, rfl, rfl, ?_⟩⟩
    · intro i hi
      by_cases hik : i = k
      · rw [hik]
      · exact le_of_lt (lt_of_le_of_lt (hle i (by omega)) h)
    · intro j hj
      exact lt_of_le_of_lt (hle j hj) h
  · dsimp only; rw [if_neg h]
    refine ⟨?_, ?_⟩
    · intro i hi
      by_cases hik : i = k
      · rw [hik]; exact le_of_not_lt h
      · exact hle i (by omega)
    · rcases hsel with h0 | ⟨i, hi, h1, h2, h3⟩
      · exact Or.inl h0
      · exact Or.inr ⟨i, by omega, h1, h2, h3⟩

/-- A pass of the loop that pivots found a positive `highest_coeff`, a
`highest_ratio` other than the start value, and pivots on what the two scans
chose. -/
theorem iteration_next_eq (n m : Nat) (lp lp' : LinearProgram)
    (h : iteration n m lp = .next lp') :
    0 < (chooseLoosen n lp).2 ∧
    (chooseTighten n m lp (chooseLoosen n lp).1).2.2 ≠ FLT_LOWEST ∧
    lp' = pivot n m lp (chooseLoosen n lp).1 (chooseTighten n m lp (chooseLoosen n lp).1).1
      (chooseTighten n m lp (chooseLoosen n lp).1).2.1 := by
  unfold iteration at h
  dsimp only at h
  by_cases h1 : (chooseLoosen n lp).2 ≤ 0
  · rw [if_pos h1] at h; cases h
  rw [if_neg h1] at h
  by_cases h2 : (chooseTighten n m lp (chooseLoosen n lp).1).2.2 = FLT_LOWEST
  · rw [if_pos h2] at h; cases h
  rw [if_neg h2] at h
  injection h with h
  exact ⟨lt_of_not_le h1, h2, h.symm⟩

theorem iteration_optimal_iff (n m : Nat) (lp : LinearProgram) :
    iteration n m lp = .ret .optimal ↔ (chooseLoosen n lp).2 ≤ 0 := by
  unfold iteration
  dsimp only
  by_cases h1 : (chooseLoosen n lp).2 ≤ 0
  · rw [if_pos h1]; exact ⟨fun _ => h1, fun _ => rfl⟩
  · rw [if_neg h1]
    by_cases h2 : (chooseTighten n m lp (chooseLoosen n lp).1).2.2 = FLT_LOWEST
    · rw [if_pos h2]
      exact ⟨fun h => (by cases h), fun h => absurd h h1⟩
    · rw [if_neg h2]
      exact ⟨fun h => (by cases h), fun h => absurd h h1⟩

theorem iteration_failure_iff (n m : Nat) (lp : LinearProgram) :
    iteration n m lp = .ret .failure ↔
      (0 < (chooseLoosen n lp).2 ∧
        (chooseTighten n m lp (chooseLoosen n lp).1).2.2 = FLT_LOWEST) := by
  unfold iteration
  dsimp only
  by_cases h1 : (chooseLoosen n lp).2 ≤ 0
  · rw [if_pos h1]
    exact ⟨fun h => (by cases h), fun h => absurd h.1 (not_lt_of_le h1)⟩
  · rw [if_neg h1]
    by_cases h2 : (chooseTighten n m lp (chooseLoosen n lp).1).2.2 = FLT_LOWEST
    · rw [if_pos h2]
      exact ⟨fun _ => ⟨lt_of_not_le h1, h2⟩, fun _ => rfl⟩
    · rw [if_neg h2]
      exact ⟨fun h => (by cases h), fun h => absurd h.2 h2⟩

/-- In a pass of the loop that pivots, from well-formed fields: the entering
variable is a decision variable with a positive objective coefficient, and
the leaving variable is the one of the leaving row. -/
theorem iteration_next_sel (n m : Nat) (lp lp' : LinearProgram) (hw : WF n m lp)
    (h : iteration n m lp = .next lp') :
    (chooseLoosen n lp).1 < n ∧ 0 < vget lp.c (chooseLoosen n lp).1 ∧
    (chooseTighten n m lp (chooseLoosen n lp).1).2.1 < m ∧
    (chooseTighten n m lp (chooseLoosen n lp).1).1 =
      iget lp.loose (chooseTighten n m lp (chooseLoosen n lp).1).2.1 := by
  obtain ⟨hpos, hne, -⟩ := iteration_next_eq n m lp lp' h
  obtain ⟨i, hi, he1, he2⟩ : ∃ i, i < n ∧ (chooseLoosen n lp).1 = iget lp.tight i ∧
      (chooseLoosen n lp).2 = vget lp.c (chooseLoosen n lp).1 := by
    rcases chooseLoosen_spec n lp with h0 | h0
    · rw [h0] at hpos; norm_num at hpos
    · exact h0
  obtain ⟨hsel, -⟩ := chooseTighten_spec n m lp (chooseLoosen n lp).1
  rcases hsel with h0 | ⟨s1, s2, -⟩
  · rw [h0] at hne; exact absurd rfl hne
  refine ⟨?_, he2 ▸ hpos, s1, s2⟩
  rw [he1, hw.tight_id i hi]; exact hi

theorem currentValue_nonneg (n m : Nat) (lp : LinearProgram)
    (hf : ∀ i, i < m → 0 ≤ mget lp.A i (n + m)) (v : Nat) : 0 ≤ currentValue n m lp v := by
  unfold currentValue
  cases hfind : (List.range m).find? (fun k => decide (iget lp.loose k = v)) with
  | none => exact le_refl _
  | some k => exact hf k (List.mem_range.1 (List.mem_of_find?_eq_some hfind))

/-- The coefficients of a row of the constructed tableau, summed against an
assignment, are minus the original constraint row on the decision variables. -/
theorem init_row_sum (n m : Nat) (c : List ℚ) (A : List (List ℚ)) (b : List ℚ) (x : Nat → ℚ)
    (i : Nat) (hi : i < m) :
    ∑ j in Finset.range (n + m), mget (LinearProgram.init n m c A b).A i j * x j =
      -∑ j in Finset.range n, mget A i j * x j := by
  have hA := (init_A n m c A b).2
  rw [Finset.sum_range_add]
  have hz : ∑ j in Finset.range m,
      mget (LinearProgram.init n m c A b).A i (n + j) * x (n + j) = 0 := by
    refine Finset.sum_eq_zero (fun j hj => ?_)
    have := Finset.mem_range.1 hj
    have c1 : ¬ (i < m ∧ n + j < n) := by omega
    have c2 : ¬ (i < m ∧ n + j = n + m) := by omega
    rw [hA, if_neg c1, if_neg c2, zero_mul]
  rw [hz, add_zero, ← Finset.sum_neg_distrib]
  refine Finset.sum_congr rfl (fun j hj => ?_)
  rw [hA, if_pos ⟨hi, Finset.mem_range.1 hj⟩, neg_mul]

/-- The loop of `solve()` alternates for ever between two states on the
instance `c = (1, 1)`, `A = [[-1, 1]]`, `b = (0)`. -/
theorem solve_cycle (fuel : Nat) :
    solve 2 1 fuel ⟨[0, 2, 1, 0], [[0, 1, 1, 0]], [0], [0, 1]⟩ = none ∧
    solve 2 1 fuel ⟨[2, 0, -1, 0], [[1, 0, -1, 0]], [1], [0, 1]⟩ = none := by
  have h1 : iteration 2 1 ⟨[0, 2, 1, 0], [[0, 1, 1, 0]], [0], [0, 1]⟩ =
      .next ⟨[2, 0, -1, 0], [[1, 0, -1, 0]], [1], [0, 1]⟩ := by decide!
  have h2 : iteration 2 1 ⟨[2, 0, -1, 0], [[1, 0, -1, 0]], [1], [0, 1]⟩ =
      .next ⟨[0, 2, 1, 0], [[0, 1, 1, 0]], [0], [0, 1]⟩ := by decide!
  induction fuel with
  | zero => exact ⟨rfl, rfl⟩
  | succ f ih =>
    refine ⟨?_, ?_⟩
    · rw [solve, h1]; exact ih.2
    · rw [solve, h2]; exact ih.1

/-! ## The claims -/

/-- C1 (code at the failing input): on `c = (3, 2)`, `A = [[1, 0], [2, 1]]`,
`b = (2, 6)`, where every `b[i] ≥ 0`, `solve()` returns through its optimal
exit with `objective()` equal to `10`, although the feasible point `(0, 6)`
has objective value `12`. -/
theorem C1_optimal_exit_below_maximum :
    (∀ i, i < 2 → 0 ≤ vget [2, 6] i) ∧
    (∀ fuel, ∃ lp, solve 2 2 (fuel + 3)
        (LinearProgram.init 2 2 [3, 2] [[1, 0], [2, 1]] [2, 6]) = some (Exit.optimal, lp) ∧
      objective 2 2 lp = 10) ∧
    feasible 2 2 [[1, 0], [2, 1]] [2, 6] (fun j => [0, 6].getD j 0) ∧
    lpValue 2 [3, 2] (fun j => [0, 6].getD j 0) = 12 := by
  refine ⟨by decide!, ?_, by unfold feasible; decide!, by decide!⟩
  intro fuel
  have h : solve 2 2 3 (LinearProgram.init 2 2 [3, 2] [[1, 0], [2, 1]] [2, 6]) =
      some (Exit.optimal, ⟨[0, 0, 1, -2, 10], [[0, 0, -1, 0, 2], [0, 0, 2, -1, 2]],
        [0, 1], [0, 1]⟩) := by decide!
  have e := solve_add 2 2 3 fuel _ _ h
  rw [Nat.add_comm] at e
  exact ⟨_, e, by decide!⟩

/-- C2 (counterexample): in `example_1`, whatever the fuel, `objective()`
after `solve()` is not within `1e-3` of `7000`. -/
theorem C2_not_7000 :
    ¬ ∃ fuel v, example_1 fuel = some v ∧ |v - 7000| ≤ 1 / 1000 := by
  rintro ⟨fuel, v, h, hv⟩
  have h3 : solve 2 3 3 example_1_lp = some (Exit.optimal,
      ⟨[0, 0, 0, -1/2, -6/5, 8000],
       [[0, 0, 0, -1, 1, 2000], [0, 0, 0, -1, 0, 4000], [0, 0, 0, 1, -1, 1000]],
       [2, 1, 0], [0, 1]⟩) := by decide!
  unfold example_1 at h
  cases hs : solve 2 3 fuel example_1_lp with
  | none => rw [hs] at h; cases h
  | some r =>
    rw [hs] at h
    have := solve_unique 2 3 fuel 3 example_1_lp _ _ hs h3
    rw [this] at h
    have hv8 : v = 8000 := by
      have := Option.some.inj h
      rw [← this]; decide!
    rw [hv8] at hv
    norm_num [abs_le] at hv

/-- C2 (amended): in `example_1`, `solve()` terminates (after two pivots,
through its optimal exit) and `objective()` then returns `8000`; with the
two objective coefficients read as the `float` values nearest to `1.2` and
`1.7` the value is still within `1e-3` of `8000`. -/
theorem C2_example_1 (fuel : Nat) :
    example_1 (fuel + 3) = some 8000 ∧
    (∃ lp, solve 2 3 (fuel + 3) example_1_lp = some (Exit.optimal, lp)) ∧
    ∃ lp, solve 2 3 (fuel + 3)
        (LinearProgram.init 2 3 [5033165 / 4194304, 7130317 / 4194304]
          [[1, 0], [0, 1], [1, 1]] [3000, 4000, 5000]) = some (Exit.optimal, lp) ∧
      |objective 2 3 lp - 8000| ≤ 1 / 1000 := by
  have h3 : solve 2 3 3 example_1_lp = some (Exit.optimal,
      ⟨[0, 0, 0, -1/2, -6/5, 8000],
       [[0, 0, 0, -1, 1, 2000], [0, 0, 0, -1, 0, 4000], [0, 0, 0, 1, -1, 1000]],
       [2, 1, 0], [0, 1]⟩) := by decide!
  have h3' : solve 2 3 3 (LinearProgram.init 2 3 [5033165 / 4194304, 7130317 / 4194304]
          [[1, 0], [0, 1], [1, 1]] [3000, 4000, 5000]) = some (Exit.optimal,
      ⟨[0, 0, 0, -1/2, -5033165/4194304, 4194304125/524288],
       [[0, 0, 0, -1, 1, 2000], [0, 0, 0, -1, 0, 4000], [0, 0, 0, 1, -1, 1000]],
       [2, 1, 0], [0, 1]⟩) := by decide!
  have e := solve_add 2 3 3 fuel _ _ h3
  have e' := solve_add 2 3 3 fuel _ _ h3'
  rw [Nat.add_comm] at e e'
  refine ⟨?_, ⟨_, e⟩, _, e', ?_⟩
  · unfold example_1
    rw [e]; decide!
  · have : objective 2 3 ⟨[0, 0, 0, -1/2, -5033165/4194304, 4194304125/524288],
       [[0, 0, 0, -1, 1, 2000], [0, 0, 0, -1, 0, 4000], [0, 0, 0, 1, -1, 1000]],
       [2, 1, 0], [0, 1]⟩ = 4194304125/524288 := by decide!
    rw [this]
    norm_num [abs_le]

/-- C3: in `example_2`, `solve()` terminates through its optimal exit,
`objective()` then returns `13`, and the final basic solution is
`x = (2, 0, 1)`. -/
theorem C3_example_2 (fuel : Nat) :
    ∃ lp, solve 3 3 (fuel + 3) example_2_lp = some (Exit.optimal, lp) ∧
      example_2 (fuel + 3) = some 13 ∧ objective 3 3 lp = 13 ∧
      currentValue 3 3 lp 0 = 2 ∧ currentValue 3 3 lp 1 = 0 ∧ currentValue 3 3 lp 2 = 1 := by
  have h : solve 3 3 3 example_2_lp = some (Exit.optimal, example_2_final) := by decide!
  have e := solve_add 3 3 3 fuel _ _ h
  rw [Nat.add_comm] at e
  refine ⟨_, e, ?_, by decide!, by decide!, by decide!, by decide!⟩
  unfold example_2
  rw [e]; decide!

/-- C4 (code at the failing input): on `n = 1`, `m = 1`, `c = (1)`,
`A = [[-1]]`, `b = (0)` the premises of the claim hold and the linear program
is unbounded (every `t ≥ 0` is feasible with objective value `t`), yet
`solve()` pivots once and returns through its optimal exit with `objective()`
equal to `0`; with all `b[i] > 0`, on `c = (1, 2)`, `A = [[-2, 1], [-1, 1]]`,
`b = (1, 1)`, it likewise returns through its optimal exit. -/
theorem C4_unbounded_reported_optimal :
    (∀ i, i < 1 → 0 ≤ vget [0] i) ∧ 0 < vget [1] 0 ∧ (∀ i, i < 1 → mget [[-1]] i 0 ≤ 0) ∧
    (∀ t : ℚ, 0 ≤ t → feasible 1 1 [[-1]] [0] (fun _ => t) ∧ lpValue 1 [1] (fun _ => t) = t) ∧
    (∀ fuel, ∃ lp, solve 1 1 (fuel + 2) (LinearProgram.init 1 1 [1] [[-1]] [0]) =
        some (Exit.optimal, lp) ∧ objective 1 1 lp = 0) ∧
    (∀ i, i < 2 → 0 < vget [1, 1] i) ∧ 0 < vget [1, 2] 0 ∧
    (∀ i, i < 2 → mget [[-2, 1], [-1, 1]] i 0 ≤ 0) ∧
    (∀ fuel, ∃ lp, solve 2 2 (fuel + 3)
        (LinearProgram.init 2 2 [1, 2] [[-2, 1], [-1, 1]] [1, 1]) = some (Exit.optimal, lp) ∧
      objective 2 2 lp = 2) := by
  refine ⟨by decide!, by decide!, by decide!, ?_, ?_, by decide!, by decide!, by decide!, ?_⟩
  · intro t ht
    refine ⟨⟨fun _ _ => ht, ?_⟩, ?_⟩
    · intro i hi
      have hi0 : i = 0 := by omega
      subst hi0
      have e1 : mget [[-1]] 0 0 = -1 := by decide!
      have e2 : vget [0] 0 = 0 := by decide!
      rw [Finset.sum_range_one, e1, e2]
      linarith
    · have e1 : vget [1] 0 = 1 := by decide!
      unfold lpValue
      rw [Finset.sum_range_one, e1, one_mul]
  · intro fuel
    have h : solve 1 1 2 (LinearProgram.init 1 1 [1] [[-1]] [0]) =
        some (Exit.optimal, ⟨[0, 1, 0], [[0, 1, 0]], [0], [0]⟩) := by decide!
    have e := solve_add 1 1 2 fuel _ _ h
    rw [Nat.add_comm] at e
    exact ⟨_, e, by decide!⟩
  · intro fuel
    have h : solve 2 2 3 (LinearProgram.init 2 2 [1, 2] [[-2, 1], [-1, 1]] [1, 1]) =
        some (Exit.optimal, ⟨[0, 0, 3, -5, 2], [[0, 0, 1, -2, 1], [0, 0, 1, -1, 0]],
          [1, 0], [0, 1]⟩) := by decide!
    have e := solve_add 2 2 3 fuel _ _ h
    rw [Nat.add_comm] at e
    exact ⟨_, e, by decide!⟩

/-- C5 (counterexample): `solve()` takes its failure exit on `c = (1)`,
`A = [[0]]`, `b = (1)` and its optimal exit in `example_2`, and hands back the
same value to its caller in both runs. -/
theorem C5_same_return_value :
    (solve 1 1 1 (LinearProgram.init 1 1 [1] [[0]] [1])).map (fun r => r.1) =
      some Exit.failure ∧
    (solve 3 3 3 example_2_lp).map (fun r => r.1) = some Exit.optimal ∧
    (solve 1 1 1 (LinearProgram.init 1 1 [1] [[0]] [1])).map (fun r => r.1.returned) =
      (solve 3 3 3 example_2_lp).map (fun r => r.1.returned) := by
  refine ⟨by decide!, by decide!, by decide!⟩

/-- C5 (amended): `solve()` hands the same value (none: it returns `void`)
back to its caller at both exits; the two terminal cases differ in what was
written to the error stream: nothing when no tight variable has a positive
objective coefficient, the line "Something went wrong" when the ratio test
finds no eligible leaving row. -/
theorem C5_exits_differ_in_cerr (n m fuel : Nat) (lp lp' : LinearProgram) (x : Exit)
    (h : solve n m fuel lp = some (x, lp')) :
    x.returned = Exit.optimal.returned ∧ x.returned = Exit.failure.returned ∧
    Exit.optimal.cerr ≠ Exit.failure.cerr ∧
    ((chooseLoosen n lp').2 ≤ 0 → x.cerr = []) ∧
    (¬ (chooseLoosen n lp').2 ≤ 0 →
      (chooseTighten n m lp' (chooseLoosen n lp').1).2.2 = FLT_LOWEST ∧
      x.cerr = ["Something went wrong"]) := by
  obtain ⟨k, -, -, hit⟩ := solve_afterPivots n m fuel lp lp' x h
  refine ⟨rfl, rfl, by decide, ?_, ?_⟩
  · intro h1
    unfold iteration at hit
    dsimp only at hit
    rw [if_pos h1] at hit
    injection hit with hit
    rw [← hit]; rfl
  · intro h1
    unfold iteration at hit
    dsimp only at hit
    rw [if_neg h1] at hit
    by_cases h2 : (chooseTighten n m lp' (chooseLoosen n lp').1).2.2 = FLT_LOWEST
    · rw [if_pos h2] at hit
      injection hit with hit
      exact ⟨h2, by rw [← hit]; rfl⟩
    · rw [if_neg h2] at hit; cases hit

/-- C5 (witness): the run of `example_2`. -/
theorem C5_exits_differ_in_cerr_witness :
    solve 3 3 3 example_2_lp = some (Exit.optimal, example_2_final) ∧
    Exit.optimal.cerr = [] :=
  ⟨by decide!,
    (C5_exits_differ_in_cerr 3 3 3 example_2_lp example_2_final Exit.optimal
      (by decide!)).2.2.2.1 (by decide!)⟩

/-- C6 (code at the failing input): after the first pivot of `example_2`,
whose entering variable is `0` and whose leaving variable is `3`, `tight` is
still `[0, 1, 2]` and `loose` is `[0, 4, 5]`: index `0` is in both and index
`3` is in neither. -/
theorem C6_partition_broken :
    (afterPivots 3 3 1 example_2_lp).map (fun lp => (lp.tight, lp.loose)) =
      some ([0, 1, 2], [0, 4, 5]) ∧
    (chooseLoosen 3 example_2_lp).1 = 0 ∧
    (chooseTighten 3 3 example_2_lp 0).1 = 3 ∧
    0 ∈ [0, 1, 2] ∧ 0 ∈ [0, 4, 5] ∧ 3 ∉ [0, 1, 2] ++ [0, 4, 5] := by
  refine ⟨by decide!, by decide!, by decide!, by decide, by decide, by decide⟩

/-- C8: at construction (`k = 0`) and after every pivot performed by
`solve()`, `c[n+m]`, which is what `objective()` returns, equals the original
objective `sum_{j<n} c0[j] * x_j` at the current basic solution `x`. -/
theorem C8_objective_constant (n m : Nat) (c : List ℚ) (A : List (List ℚ)) (b : List ℚ)
    (k : Nat) (lp : LinearProgram)
    (h : afterPivots n m k (LinearProgram.init n m c A b) = some lp) :
    objective n m lp = lpValue n c (currentValue n m lp) := by
  have hw := afterPivots_WF n m k _ lp (init_WF n m c A b) h
  have hd := afterPivots_dictionary n m k _ lp (init_WF n m c A b) h
    (currentValue n m lp) (rowsHold_currentValue n m lp hw)
  rw [← objExpr_currentValue n m lp hw, hd.2, objExpr_init]
  rfl

/-- C8 (witness): the state of `example_2` after its two pivots. -/
theorem C8_objective_constant_witness :
    afterPivots 3 3 2 (LinearProgram.init 3 3 [5, 4, 3] [[2, 3, 1], [4, 1, 2], [3, 4, 2]]
      [5, 11, 8]) = some example_2_final ∧
    objective 3 3 example_2_final = lpValue 3 [5, 4, 3] (currentValue 3 3 example_2_final) :=
  ⟨by decide!, C8_objective_constant 3 3 [5, 4, 3] [[2, 3, 1], [4, 1, 2], [3, 4, 2]]
    [5, 11, 8] 2 example_2_final (by decide!)⟩

/-- C9: for every instance with every `b[i] ≥ 0`, after every pivot performed
by `solve()` every row constant `A[i][n+m]` is still `≥ 0`. -/
theorem C9_feasibility_preserved (n m : Nat) (c : List ℚ) (A : List (List ℚ)) (b : List ℚ)
    (hb : ∀ i, i < m → 0 ≤ vget b i) (k : Nat) (lp : LinearProgram)
    (h : afterPivots n m k (LinearProgram.init n m c A b) = some lp) :
    ∀ i, i < m → 0 ≤ mget lp.A i (n + m) := by
  refine afterPivots_induction n m (fun s => ∀ i, i < m → 0 ≤ mget s.A i (n + m))
    (fun s s' hs hP hit => iteration_feasible n m s s' hs hP hit) k _ lp
    (init_WF n m c A b) ?_ h
  intro i hi
  have h1 : ¬ (i < m ∧ n + m < n) := by omega
  rw [(init_A n m c A b).2, if_neg h1, if_pos ⟨hi, rfl⟩]
  exact hb i hi

/-- C9 (witness): the state of `example_2` after its two pivots. -/
theorem C9_feasibility_preserved_witness :
    (∀ i, i < 3 → 0 ≤ vget [5, 11, 8] i) ∧
    afterPivots 3 3 2 (LinearProgram.init 3 3 [5, 4, 3] [[2, 3, 1], [4, 1, 2], [3, 4, 2]]
      [5, 11, 8]) = some example_2_final ∧
    ∀ i, i < 3 → 0 ≤ mget example_2_final.A i (3 + 3) :=
  ⟨by decide!, by decide!,
    C9_feasibility_preserved 3 3 [5, 4, 3] [[2, 3, 1], [4, 1, 2], [3, 4, 2]]
      [5, 11, 8] (by decide!) 2 example_2_final (by decide!)⟩

/-- C10: for every pivot that `solve()` performs (the pass of the loop that
leads from a state `lp` it has reached to the next state `lp'`), the value of
`objective()` after the pivot is greater than or equal to its value before. -/
theorem C10_objective_monotone (n m : Nat) (c : List ℚ) (A : List (List ℚ)) (b : List ℚ)
    (k : Nat) (lp lp' : LinearProgram)
    (h : afterPivots n m k (LinearProgram.init n m c A b) = some lp)
    (hit : iteration n m lp = .next lp') :
    objective n m lp ≤ objective n m lp' :=
  iteration_objective_le n m lp lp'
    (afterPivots_WF n m k _ lp (init_WF n m c A b) h) hit

/-- C10 (witness): the second pivot of `example_2`, which raises the
objective constant from `25/2` to `13`. -/
theorem C10_objective_monotone_witness :
    afterPivots 3 3 1 (LinearProgram.init 3 3 [5, 4, 3] [[2, 3, 1], [4, 1, 2], [3, 4, 2]]
      [5, 11, 8]) = some ⟨[0, -7/2, 1/2, -5/2, 0, 0, 25/2],
        [[0, -3/2, -1/2, -1/2, 0, 0, 5/2], [0, 5, 0, 2, 0, 0, 1],
         [0, 1/2, -1/2, 3/2, 0, 0, 1/2]], [0, 4, 5], [0, 1, 2]⟩ ∧
    iteration 3 3 ⟨[0, -7/2, 1/2, -5/2, 0, 0, 25/2],
        [[0, -3/2, -1/2, -1/2, 0, 0, 5/2], [0, 5, 0, 2, 0, 0, 1],
         [0, 1/2, -1/2, 3/2, 0, 0, 1/2]], [0, 4, 5], [0, 1, 2]⟩ = .next example_2_final ∧
    objective 3 3 ⟨[0, -7/2, 1/2, -5/2, 0, 0, 25/2],
        [[0, -3/2, -1/2, -1/2, 0, 0, 5/2], [0, 5, 0, 2, 0, 0, 1],
         [0, 1/2, -1/2, 3/2, 0, 0, 1/2]], [0, 4, 5], [0, 1, 2]⟩ ≤
      objective 3 3 example_2_final :=
  ⟨by decide!, by decide!,
    C10_objective_monotone 3 3 [5, 4, 3] [[2, 3, 1], [4, 1, 2], [3, 4, 2]] [5, 11, 8] 1 _
      example_2_final (by decide!) (by decide!)⟩

/-- C11: for every `(c, A, b)` the constructed instance has tableau
`A'[i][j] = -A[i][j]` for `j < n`, `A'[i][j] = 0` for `n ≤ j < n+m`,
`A'[i][n+m] = b[i]`; its objective row is `c` on the indices `< n` and `0` on
the indices `n..n+m`; `tight = [0, ..., n-1]` and `loose = [n, ..., n+m-1]`. -/
theorem C11_construction (n m : Nat) (c : List ℚ) (A : List (List ℚ)) (b : List ℚ) :
    Shape (LinearProgram.init n m c A b).A m (n + m + 1) ∧
    (∀ i j, i < m → j < n → mget (LinearProgram.init n m c A b).A i j = -(mget A i j)) ∧
    (∀ i j, i < m → n ≤ j → j < n + m → mget (LinearProgram.init n m c A b).A i j = 0) ∧
    (∀ i, i < m → mget (LinearProgram.init n m c A b).A i (n + m) = vget b i) ∧
    (LinearProgram.init n m c A b).c.length = n + m + 1 ∧
    (∀ j, j < n → vget (LinearProgram.init n m c A b).c j = vget c j) ∧
    (∀ j, n ≤ j → j ≤ n + m → vget (LinearProgram.init n m c A b).c j = 0) ∧
    (LinearProgram.init n m c A b).tight = List.range n ∧
    (LinearProgram.init n m c A b).loose = List.range' n m := by
  have hc := init_c n m c A b
  have hA := init_A n m c A b
  have ht := init_tight n m c A b
  have hl := init_loose n m c A b
  refine ⟨hA.1, ?_, ?_, ?_, hc.1, ?_, ?_, ?_, ?_⟩
  · intro i j hi hj
    rw [hA.2, if_pos ⟨hi, hj⟩]
  · intro i j hi h1 h2
    have c1 : ¬ (i < m ∧ j < n) := by omega
    have c2 : ¬ (i < m ∧ j = n + m) := by omega
    rw [hA.2, if_neg c1, if_neg c2]
  · intro i hi
    have c1 : ¬ (i < m ∧ n + m < n) := by omega
    rw [hA.2, if_neg c1, if_pos ⟨hi, rfl⟩]
  · intro j hj
    rw [hc.2, if_pos hj]
  · intro j h1 _
    have c1 : ¬ j < n := by omega
    rw [hc.2, if_neg c1]
  · have := list_eq_of_iget _ n id ht.1 ht.2
    rw [this, List.map_id]
  · rw [list_eq_of_iget _ m (fun i => n + i) hl.1 hl.2, List.range'_eq_map_range]

/-- C12: for every instance with `n = 0` or `m = 0`, the first pass of the
loop of `solve()` returns without a pivot, so `solve()` returns with the
fields as the constructor left them, and `objective()` is then `0`. -/
theorem C12_dimension_boundary (n m : Nat) (c : List ℚ) (A : List (List ℚ)) (b : List ℚ)
    (h : n = 0 ∨ m = 0) (fuel : Nat) :
    ∃ x, iteration n m (LinearProgram.init n m c A b) = .ret x ∧
      solve n m (fuel + 1) (LinearProgram.init n m c A b) =
        some (x, LinearProgram.init n m c A b) ∧
      objective n m (LinearProgram.init n m c A b) = 0 := by
  have hobj : objective n m (LinearProgram.init n m c A b) = 0 := by
    unfold objective
    have c1 : ¬ (n + m < n) := by omega
    rw [(init_c n m c A b).2, if_neg c1]
  have hret : ∃ x, iteration n m (LinearProgram.init n m c A b) = .ret x := by
    by_cases h1 : (chooseLoosen n (LinearProgram.init n m c A b)).2 ≤ 0
    · exact ⟨.optimal, (iteration_optimal_iff n m _).2 h1⟩
    · refine ⟨.failure, (iteration_failure_iff n m _).2 ⟨lt_of_not_le h1, ?_⟩⟩
      rcases h with h0 | h0
      · exfalso
        apply h1
        subst h0
        unfold chooseLoosen
        rw [forLoop_empty 0 0 (Nat.le_refl _)]
        norm_num
      · subst h0
        unfold chooseTighten
        rw [forLoop_empty 0 0 (Nat.le_refl _)]
  obtain ⟨x, hx⟩ := hret
  refine ⟨x, hx, ?_, hobj⟩
  rw [solve, hx]

/-- C12 (witness): no decision variable and two constraints. -/
theorem C12_dimension_boundary_witness :
    (0 = 0 ∨ 2 = 0) ∧
    ∃ x, iteration 0 2 (LinearProgram.init 0 2 [] [[], []] [1, 2]) = .ret x ∧
      solve 0 2 (0 + 1) (LinearProgram.init 0 2 [] [[], []] [1, 2]) =
        some (x, LinearProgram.init 0 2 [] [[], []] [1, 2]) ∧
      objective 0 2 (LinearProgram.init 0 2 [] [[], []] [1, 2]) = 0 :=
  ⟨Or.inl rfl, C12_dimension_boundary 0 2 [] [[], []] [1, 2] (Or.inl rfl) 0⟩

/-- C13: for every state of the right sizes in which the pivot entry
`A[r][e]` is nonzero and every row has `0` in the columns of all basic
variables, an assignment `x` of the `n + m` variables satisfies all row
equations before the pivot if and only if it satisfies all of them after the
pivot (where `loose[r] = e`), and on such `x` the objective expression
`c[n+m] + sum_j c[j] * x_j` has the same value before and after. -/
theorem C13_pivot_preserves_dictionary (n m : Nat) (lp : LinearProgram) (e r : Nat)
    (hS : Shape lp.A m (n + m + 1)) (hc : lp.c.length = n + m + 1)
    (hlen : lp.loose.length = m) (hlt : ∀ i, i < m → iget lp.loose i < n + m)
    (hr : r < m) (he : e < n + m) (hp : mget lp.A r e ≠ 0)
    (hcol : ∀ i, i < m → ∀ k, k < m → mget lp.A k (iget lp.loose i) = 0) (x : Nat → ℚ) :
    iget (pivot n m lp e (iget lp.loose r) r).loose r = e ∧
    (rowsHold n m lp x ↔ rowsHold n m (pivot n m lp e (iget lp.loose r) r) x) ∧
    (rowsHold n m lp x →
      objExpr n m lp x = objExpr n m (pivot n m lp e (iget lp.loose r) r) x) := by
  have het : e ≠ iget lp.loose r := by
    intro h
    apply hp
    rw [h]
    exact hcol r hr r hr
  obtain ⟨d1, d2⟩ := pivot_dictionary_of n m lp e r hS hc hlen (hlt r hr) (hcol r hr r hr)
    he hr het hp x
  obtain ⟨-, -, p3, -⟩ := pivot_spec n m lp e (iget lp.loose r) r hS hc hr he (hlt r hr) het
  refine ⟨?_, d1.symm, fun h => (d2 h).symm⟩
  rw [p3, iget_set, if_pos ⟨rfl, by rw [hlen]; exact hr⟩]

/-- C13 (witness): the first pivot of `example_2`, on row `0` with entering
variable `0`, at the assignment that is `0` everywhere. -/
theorem C13_pivot_preserves_dictionary_witness :
    Shape example_2_lp.A 3 (3 + 3 + 1) ∧ example_2_lp.c.length = 3 + 3 + 1 ∧
    example_2_lp.loose.length = 3 ∧ (∀ i, i < 3 → iget example_2_lp.loose i < 3 + 3) ∧
    0 < 3 ∧ 0 < 3 + 3 ∧ mget example_2_lp.A 0 0 ≠ 0 ∧
    (∀ i, i < 3 → ∀ k, k < 3 → mget example_2_lp.A k (iget example_2_lp.loose i) = 0) ∧
    (iget (pivot 3 3 example_2_lp 0 (iget example_2_lp.loose 0) 0).loose 0 = 0 ∧
     (rowsHold 3 3 example_2_lp (fun _ => 0) ↔
       rowsHold 3 3 (pivot 3 3 example_2_lp 0 (iget example_2_lp.loose 0) 0) (fun _ => 0)) ∧
     (rowsHold 3 3 example_2_lp (fun _ => 0) →
       objExpr 3 3 example_2_lp (fun _ => 0) =
         objExpr 3 3 (pivot 3 3 example_2_lp 0 (iget example_2_lp.loose 0) 0) (fun _ => 0))) :=
  ⟨by unfold Shape; decide!, by decide!, by decide!, by decide!, by decide, by decide,
    by decide!, by decide!,
    C13_pivot_preserves_dictionary 3 3 example_2_lp 0 0 (by unfold Shape; decide!)
      (by decide!) (by decide!) (by decide!) (by decide) (by decide) (by decide!)
      (by decide!) (fun _ => 0)⟩

/-- C14: in every pass of the loop, `solve()` takes the optimal exit exactly
when no variable in `tight` has an objective coefficient `> 0`; otherwise the
entering variable, the one the pivot of this pass is done with, is `tight[i]`
for the smallest position `i` at which `c[tight[i]]` attains the maximum of
`c` over all variables in `tight`. -/
theorem C14_entering_selection (n m : Nat) (lp : LinearProgram) :
    (iteration n m lp = .ret .optimal ↔ ∀ i, i < n → vget lp.c (iget lp.tight i) ≤ 0) ∧
    ((∃ i, i < n ∧ 0 < vget lp.c (iget lp.tight i)) →
      ∃ i, i < n ∧ (chooseLoosen n lp).1 = iget lp.tight i ∧
        (∀ k, k < n → vget lp.c (iget lp.tight k) ≤ vget lp.c (iget lp.tight i)) ∧
        (∀ k, k < i → vget lp.c (iget lp.tight k) < vget lp.c (iget lp.tight i))) ∧
    (∀ lp', iteration n m lp = .next lp' →
      lp' = pivot n m lp (chooseLoosen n lp).1
        (chooseTighten n m lp (chooseLoosen n lp).1).1
        (chooseTighten n m lp (chooseLoosen n lp).1).2.1) := by
  obtain ⟨hle, hsel⟩ := chooseLoosen_max n lp
  refine ⟨?_, ?_, fun lp' h => (iteration_next_eq n m lp lp' h).2.2⟩
  · rw [iteration_optimal_iff]
    constructor
    · intro h i hi
      exact le_trans (hle i hi) h
    · intro h
      rcases hsel with h0 | ⟨i, hi, -, h2, -⟩
      · rw [h0]; norm_num
      · rw [h2]; exact h i hi
  · rintro ⟨j, hj, hpos⟩
    rcases hsel with h0 | ⟨i, hi, h1, h2, h3⟩
    · have := hle j hj
      rw [h0] at this
      have : vget lp.c (iget lp.tight j) ≤ -1 := this
      linarith
    · refine ⟨i, hi, h1, ?_, h3⟩
      intro k hk
      rw [← h2]
      exact hle k hk

/-- C15 (code at the failing input): on `n = 1`, `m = 1`, `c = (1)`,
`A = [[1]]`, `b = (3.4028235e38)`, the largest `float`, the entering variable
is `0` and row `0` is eligible (its coefficient `-1` is nonzero and its ratio
is `≤ 0`), but the ratio equals the start value of `highest_ratio`, the row
is not taken and `solve()` returns through its failure exit. -/
theorem C15_eligible_row_missed :
    (chooseLoosen 1 (LinearProgram.init 1 1 [1] [[1]]
      [340282346638528859811704183484516925440])).1 = 0 ∧
    mget (LinearProgram.init 1 1 [1] [[1]] [340282346638528859811704183484516925440]).A 0 0
      ≠ 0 ∧
    mget (LinearProgram.init 1 1 [1] [[1]] [340282346638528859811704183484516925440]).A 0
        (1 + 1) /
      mget (LinearProgram.init 1 1 [1] [[1]] [340282346638528859811704183484516925440]).A 0 0
      ≤ 0 ∧
    mget (LinearProgram.init 1 1 [1] [[1]] [340282346638528859811704183484516925440]).A 0
        (1 + 1) /
      mget (LinearProgram.init 1 1 [1] [[1]] [340282346638528859811704183484516925440]).A 0 0
      = FLT_LOWEST ∧
    iteration 1 1 (LinearProgram.init 1 1 [1] [[1]]
      [340282346638528859811704183484516925440]) = .ret .failure ∧
    ∀ fuel, solve 1 1 (fuel + 1) (LinearProgram.init 1 1 [1] [[1]]
        [340282346638528859811704183484516925440]) =
      some (Exit.failure, LinearProgram.init 1 1 [1] [[1]]
        [340282346638528859811704183484516925440]) := by
  have hit : iteration 1 1 (LinearProgram.init 1 1 [1] [[1]]
      [340282346638528859811704183484516925440]) = .ret .failure := by decide!
  refine ⟨by decide!, by decide!, by decide!, by decide!, hit, ?_⟩
  intro fuel
  rw [solve, hit]

/-- C16 (code at the failing input): on `n = 1`, `m = 1`, `c = (1)`,
`A = [[-1]]`, `b = (0)` every row constant is `≥ 0` and no row has
`A[i][e] < 0` for the entering variable `e = 0`, yet the ratio test chooses
row `0`, whose entry `A[0][e]` is `1`, and the pass pivots instead of taking
the failure exit. -/
theorem C16_nonbinding_row_chosen :
    (∀ i, i < 1 → 0 ≤ mget (LinearProgram.init 1 1 [1] [[-1]] [0]).A i (1 + 1)) ∧
    (chooseLoosen 1 (LinearProgram.init 1 1 [1] [[-1]] [0])).1 = 0 ∧
    (∀ i, i < 1 → ¬ mget (LinearProgram.init 1 1 [1] [[-1]] [0]).A i 0 < 0) ∧
    chooseTighten 1 1 (LinearProgram.init 1 1 [1] [[-1]] [0]) 0 = (1, 0, 0) ∧
    mget (LinearProgram.init 1 1 [1] [[-1]] [0]).A 0 0 = 1 ∧
    iteration 1 1 (LinearProgram.init 1 1 [1] [[-1]] [0]) =
      .next ⟨[0, 1, 0], [[0, 1, 0]], [0], [0]⟩ := by
  refine ⟨by decide!, by decide!, by decide!, by decide!, by decide!, by decide!⟩

/-- C17: on the instance `n = 2`, `m = 1`, `c = (1, 1)`, `A = [[-1, 1]]`,
`b = (0)`, where every `b[i] ≥ 0`, `solve()` never returns: the state after
the third pivot equals the state after the first pivot, and with whatever
fuel the loop has not returned. -/
theorem C17_cycling :
    (∀ i, i < 1 → 0 ≤ vget [0] i) ∧
    afterPivots 2 1 1 (LinearProgram.init 2 1 [1, 1] [[-1, 1]] [0]) =
      some ⟨[0, 2, 1, 0], [[0, 1, 1, 0]], [0], [0, 1]⟩ ∧
    afterPivots 2 1 3 (LinearProgram.init 2 1 [1, 1] [[-1, 1]] [0]) =
      afterPivots 2 1 1 (LinearProgram.init 2 1 [1, 1] [[-1, 1]] [0]) ∧
    ∀ fuel, solve 2 1 fuel (LinearProgram.init 2 1 [1, 1] [[-1, 1]] [0]) = none := by
  refine ⟨by decide!, by decide!, by decide!, ?_⟩
  intro fuel
  cases fuel with
  | zero => rfl
  | succ f =>
    have h0 : iteration 2 1 (LinearProgram.init 2 1 [1, 1] [[-1, 1]] [0]) =
        .next ⟨[0, 2, 1, 0], [[0, 1, 1, 0]], [0], [0, 1]⟩ := by decide!
    rw [solve, h0]
    exact (solve_cycle f).1

/-- C18: for every instance with every `b[i] ≥ 0` and every state `solve()`
reaches, the current basic solution `x` satisfies `x ≥ 0` and `A x ≤ b` in
the original problem and `c · x = objective()`; hence `objective()` is at
most every upper bound of the objective over the feasible region. -/
theorem C18_value_attained (n m : Nat) (c : List ℚ) (A : List (List ℚ)) (b : List ℚ)
    (hb : ∀ i, i < m → 0 ≤ vget b i) (k : Nat) (lp : LinearProgram)
    (h : afterPivots n m k (LinearProgram.init n m c A b) = some lp) :
    feasible n m A b (currentValue n m lp) ∧
    lpValue n c (currentValue n m lp) = objective n m lp ∧
    ∀ M, (∀ x, feasible n m A b x → lpValue n c x ≤ M) → objective n m lp ≤ M := by
  have hw := afterPivots_WF n m k _ lp (init_WF n m c A b) h
  have hf : ∀ i, i < m → 0 ≤ mget lp.A i (n + m) := by
    refine afterPivots_induction n m (fun s => ∀ i, i < m → 0 ≤ mget s.A i (n + m))
      (fun s s' hs hP hit => iteration_feasible n m s s' hs hP hit) k _ lp
      (init_WF n m c A b) ?_ h
    intro i hi
    have h1 : ¬ (i < m ∧ n + m < n) := by omega
    rw [(init_A n m c A b).2, if_neg h1, if_pos ⟨hi, rfl⟩]
    exact hb i hi
  have hd := afterPivots_dictionary n m k _ lp (init_WF n m c A b) h
    (currentValue n m lp) (rowsHold_currentValue n m lp hw)
  have hfeas : feasible n m A b (currentValue n m lp) := by
    refine ⟨fun j _ => currentValue_nonneg n m lp hf j, ?_⟩
    intro i hi
    have hrow := hd.1 i hi
    have c1 : ¬ (i < m ∧ n + m < n) := by omega
    rw [init_row_sum n m c A b _ i hi, (init_A n m c A b).2 i (n + m), if_neg c1,
      if_pos ⟨hi, rfl⟩] at hrow
    have := currentValue_nonneg n m lp hf (iget (LinearProgram.init n m c A b).loose i)
    linarith
  have hval : lpValue n c (currentValue n m lp) = objective n m lp := by
    rw [← objExpr_currentValue n m lp hw, hd.2, objExpr_init]
    rfl
  exact ⟨hfeas, hval, fun M hM => hval ▸ hM _ hfeas⟩

/-- C18 (witness): the state of `example_2` after its two pivots. -/
theorem C18_value_attained_witness :
    (∀ i, i < 3 → 0 ≤ vget [5, 11, 8] i) ∧
    afterPivots 3 3 2 (LinearProgram.init 3 3 [5, 4, 3] [[2, 3, 1], [4, 1, 2], [3, 4, 2]]
      [5, 11, 8]) = some example_2_final ∧
    (feasible 3 3 [[2, 3, 1], [4, 1, 2], [3, 4, 2]] [5, 11, 8]
        (currentValue 3 3 example_2_final) ∧
      lpValue 3 [5, 4, 3] (currentValue 3 3 example_2_final) = objective 3 3 example_2_final ∧
      ∀ M, (∀ x, feasible 3 3 [[2, 3, 1], [4, 1, 2], [3, 4, 2]] [5, 11, 8] x →
        lpValue 3 [5, 4, 3] x ≤ M) → objective 3 3 example_2_final ≤ M) :=
  ⟨by decide!, by decide!,
    C18_value_attained 3 3 [5, 4, 3] [[2, 3, 1], [4, 1, 2], [3, 4, 2]] [5, 11, 8]
      (by decide!) 2 example_2_final (by decide!)⟩

/-- C19: in every state `solve()` reaches from a constructed instance,
`tight` is still `[0, 1, ..., n-1]`; consequently the entering variable of
every pivot has index `< n`, and the pivot leaves `tight` as it is. -/
theorem C19_tight_never_written (n m : Nat) (c : List ℚ) (A : List (List ℚ)) (b : List ℚ)
    (k : Nat) (lp : LinearProgram)
    (h : afterPivots n m k (LinearProgram.init n m c A b) = some lp) :
    lp.tight = List.range n ∧
    ∀ lp', iteration n m lp = .next lp' →
      (chooseLoosen n lp).1 < n ∧ lp'.tight = lp.tight ∧
      lp' = pivot n m lp (chooseLoosen n lp).1
        (chooseTighten n m lp (chooseLoosen n lp).1).1
        (chooseTighten n m lp (chooseLoosen n lp).1).2.1 := by
  have hw := afterPivots_WF n m k _ lp (init_WF n m c A b) h
  refine ⟨?_, ?_⟩
  · have := list_eq_of_iget _ n id hw.tight_len hw.tight_id
    rw [this, List.map_id]
  · intro lp' hit
    have h1 := iteration_next_sel n m lp lp' hw hit
    have h2 := (iteration_next_eq n m lp lp' hit).2.2
    refine ⟨h1.1, ?_, h2⟩
    rw [h2]
    rfl

/-- C19 (witness): the state of `example_2` after its first pivot, from which
the second pivot is done. -/
theorem C19_tight_never_written_witness :
    afterPivots 3 3 1 (LinearProgram.init 3 3 [5, 4, 3] [[2, 3, 1], [4, 1, 2], [3, 4, 2]]
      [5, 11, 8]) = some example_2_mid ∧
    (example_2_mid.tight = List.range 3 ∧
     ∀ lp', iteration 3 3 example_2_mid = .next lp' →
      (chooseLoosen 3 example_2_mid).1 < 3 ∧ lp'.tight = example_2_mid.tight ∧
      lp' = pivot 3 3 example_2_mid (chooseLoosen 3 example_2_mid).1
        (chooseTighten 3 3 example_2_mid (chooseLoosen 3 example_2_mid).1).1
        (chooseTighten 3 3 example_2_mid (chooseLoosen 3 example_2_mid).1).2.1) :=
  ⟨by decide!, C19_tight_never_written 3 3 [5, 4, 3] [[2, 3, 1], [4, 1, 2], [3, 4, 2]]
    [5, 11, 8] 1 example_2_mid (by decide!)⟩

end Simplex
